import Mathlib

/-!
# A verification development for the uacme ACME client driver (`uacme.c`)

This file gives a shallow embedding of the protocol driver in `uacme.c` and
proves properties of it.  The embedding follows the C source function by
function:

* pure string utilities (`find_header`, `validate_domain_str`) become pure
  Lean functions;
* the stateful driver (`acme_get`, `acme_post`, `acme_bootstrap`,
  `account_new`, `account_retrieve`, `account_update`, `account_deactivate`,
  `authorize`, `cert_issue`, `cert_revoke`, and the `main` dispatcher) becomes
  explicit state passing over a state record `St`;
* the network is a finite script of responses (`St.net`); an exhausted script
  answers every further request with a transport failure (`none`), which is
  how the C code behaves when `curl_get`/`curl_post` returns `NULL`;
* the collaborator modules that are not part of `uacme.c` (libcurl, the JSON
  parser, the crypto module, the hook child process, the interactive prompt)
  are modelled by their interfaces: scripted responses carry an already
  parsed JSON value, crypto results are inputs, and the hook is an oracle
  function from its argument vector to its exit code;
* every observable action (HTTP request, hook invocation, diagnostic
  message) is recorded in an event trace `St.trace`.
-/

namespace Uacme

/-! ## String utilities -/

/-- Case-insensitive string equality, modelling C `strcasecmp(a, b) == 0`.
(Lowercasing is done on the character list so that concrete instances reduce
by evaluation.) -/
def strcaseeq (a b : String) : Bool :=
  a.toList.map Char.toLower == b.toList.map Char.toLower

/-- Boolean infix test on lists (used to model `strstr`). -/
def listInfix (needle : List Char) : List Char → Bool
  | [] => needle.isEmpty
  | c :: t => needle.isPrefixOf (c :: t) || listInfix needle t

/-- Modelling C `strstr(hay, needle) != NULL`. -/
def strContains (hay needle : String) : Bool :=
  listInfix needle.toList hay.toList

/-- Model of `find_header` (uacme.c:71).  The C function matches the raw
header block against the regex `^NAME: (.*)\r\n` compiled with
`REG_EXTENDED | REG_NEWLINE` (and no other flag) and returns the first
capture.  The raw header block is represented here as its list of
CRLF-terminated lines; the regex then means: return the value of the first
line that starts with `NAME: ` (a byte-for-byte comparison of the name,
since `REG_ICASE` is not passed). -/
def find_header (headers : List String) (name : String) : Option String :=
  headers.findSome? fun line =>
    let p := name ++ ": "
    if p.toList.isPrefixOf line.toList then some ⟨line.toList.drop p.toList.length⟩
    else none

/-! ## Domain-name validation (`validate_domain_str`, uacme.c:1063) -/

/-- The scanning loop of `validate_domain_str`.  `second` is `s[1]` of the
whole string (the character the `'*'` case inspects), `j` is the loop index
and `len` models the C variable `bool len` (`len++` on a C `_Bool` sets it
to `true`). -/
def vdsGo (second : Option Char) : Nat → List Char → Bool → Bool
  | _, [], len => len
  | j, c :: rest, len =>
    if c = '.' then
      if j = 0 then false else vdsGo second (j+1) rest true
    else if c = '_' ∨ c = '-' then vdsGo second (j+1) rest true
    else if c = '*' then
      if j ≠ 0 ∨ second ≠ some '.' then false
      else vdsGo second (j+1) rest len
    else if c.isUpper || c.isLower || c.isDigit then vdsGo second (j+1) rest true
    else false

/-- Model of `validate_domain_str` (uacme.c:1063). -/
def validate_domain_str (s : String) : Bool :=
  vdsGo (s.toList.get? 1) 0 s.toList false

/-- A character of the claimed character class `[A-Za-z0-9._-]`. -/
def domainCharOk (c : Char) : Bool :=
  c.isUpper || c.isLower || c.isDigit || c == '.' || c == '_' || c == '-'

/-- The claimed domain-validation rule, written from the spec's words
("Accept iff every character is in `[A-Za-z0-9._-]` or is a permitted `*`,
with no leading `.`, the only allowed use of `*` being the exact prefix
`*.`, and at least one non-separator character").  "Separator" is read as
the DNS label separator `.`. -/
def spec_validate_domain (s : String) : Bool :=
  let cs := s.toList
  cs.all (fun c => domainCharOk c || c == '*') &&
  (cs.head? != some '.') &&
  (if cs.head? == some '*' then (cs.drop 1).head? == some '.' else true) &&
  ((cs.drop 1).all (fun c => c != '*')) &&
  cs.any (fun c => c != '.')

/-! Helper lemmas about `vdsGo`. -/

theorem all_congr_local {l : List Char} {p q : Char → Bool}
    (h : ∀ c ∈ l, p c = q c) : l.all p = l.all q := by
  induction l with
  | nil => rfl
  | cons c rest ih =>
    simp only [List.all_cons]
    rw [h c (List.mem_cons_self c rest), ih (fun x hx => h x (List.mem_cons_of_mem c hx))]

/-- Behaviour of the scanning loop away from position 0: every allowed
character counts toward `len`, and `'*'` is rejected outright. -/
theorem vdsGo_tail (second : Option Char) :
    ∀ (rest : List Char) (j : Nat) (len : Bool), j ≠ 0 →
      vdsGo second j rest len = (rest.all domainCharOk && (len || !rest.isEmpty)) := by
  intro rest
  induction rest with
  | nil => intro j len _; simp [vdsGo]
  | cons c rest ih =>
    intro j len hj
    have hj1 : j + 1 ≠ 0 := Nat.succ_ne_zero j
    simp only [vdsGo]
    split_ifs with h1 h2 h3 h4 h5
    · rw [ih (j+1) true hj1]
      subst h1
      simp [List.all_cons, (by decide : domainCharOk '.' = true)]
    · rw [ih (j+1) true hj1]
      rcases h2 with h | h <;> subst h <;>
        simp [List.all_cons, (by decide : domainCharOk '_' = true),
          (by decide : domainCharOk '-' = true)]
    · -- c = '*' away from position 0: rejected, and `domainCharOk '*' = false`
      subst h3
      simp [List.all_cons, (by decide : domainCharOk '*' = false)]
    · exact absurd (Or.inl hj) h4
    · rw [ih (j+1) true hj1]
      have hok : domainCharOk c = true := by
        simp only [Bool.or_eq_true] at h5
        simp [domainCharOk]
        tauto
      simp [hok]
    · have hok : domainCharOk c = false := by
        have h5' : c.isUpper = false ∧ c.isLower = false ∧ c.isDigit = false := by
          simp only [Bool.or_eq_true, not_or, Bool.not_eq_true] at h5
          exact ⟨h5.1.1, h5.1.2, h5.2⟩
        have hu : c ≠ '_' := fun h => h2 (Or.inl h)
        have hh : c ≠ '-' := fun h => h2 (Or.inr h)
        simp [domainCharOk, h5'.1, h5'.2.1, h5'.2.2, h1, hu, hh]
      simp [hok]

/-- Combining the permitted-character sweep with the no-`*`-in-tail rule
gives exactly the tail character class of the code. -/
theorem all_domain_star (l : List Char) :
    ((l.all fun c => domainCharOk c || c == '*') && l.all fun c => c != '*') =
      l.all domainCharOk := by
  induction l with
  | nil => rfl
  | cons c rest ih =>
    simp only [List.all_cons]
    by_cases hc : c = '*'
    · subst hc
      simp [(by decide : domainCharOk '*' = false)]
    · have h1 : (c != '*') = true := by simp [hc]
      have h2 : (domainCharOk c || c == '*') = domainCharOk c := by simp [hc]
      rw [h1, h2, ← ih]
      cases domainCharOk c <;> simp [Bool.and_assoc, Bool.and_left_comm]

/-- C6 (functional_correctness, confirmed): `validate_domain_str` accepts a
command-line name string `s` if and only if every character of `s` is in
`[A-Za-z0-9._-]` or is a permitted `*`, with no leading `.`, the only
allowed use of `*` being the exact prefix `*.`, and `s` containing at least
one non-separator character (reading "separator" as the DNS label separator
`.`; no dot-free nonempty string is rejected for lack of such a character,
and the empty string is rejected). -/
theorem C6_domain_validation (s : String) :
    validate_domain_str s = spec_validate_domain s := by
  unfold validate_domain_str spec_validate_domain
  cases hcs : s.toList with
  | nil => simp [vdsGo]
  | cons c rest =>
    have hsec : (c :: rest).get? 1 = rest.head? := by cases rest <;> rfl
    rw [hsec]
    by_cases h1 : c = '.'
    · subst h1
      simp [vdsGo]
    · by_cases h2 : c = '_' ∨ c = '-'
      · rcases h2 with h | h <;> subst h <;>
          simp [vdsGo, vdsGo_tail rest.head? rest 1 true one_ne_zero,
            ← all_domain_star rest, Bool.and_assoc,
            (by decide : domainCharOk '_' = true),
            (by decide : domainCharOk '-' = true),
            (by decide : (some '_' != some '.') = true),
            (by decide : (some '-' != some '.') = true)]
      · by_cases h3 : c = '*'
        · subst h3
          by_cases h4 : rest.head? = some '.'
          · obtain ⟨r, rs, hr⟩ : ∃ r rs, rest = r :: rs := by
              cases rest with
              | nil => simp at h4
              | cons r rs => exact ⟨r, rs, rfl⟩
            have hlhs : vdsGo rest.head? 0 ('*' :: rest) false
                = vdsGo rest.head? 1 rest false := by
              simp [vdsGo, h4]
            rw [hlhs, vdsGo_tail rest.head? rest 1 false one_ne_zero]
            subst hr
            simp [h4, ← all_domain_star (r :: rs), Bool.and_assoc,
              (by decide : (some '*' != some '.') = true)]
          · have hlhs : vdsGo rest.head? 0 ('*' :: rest) false = false := by
              simp [vdsGo, h4]
            rw [hlhs]
            simp [h4]
        · by_cases h5 : (c.isUpper || c.isLower || c.isDigit) = true
          · have hok : domainCharOk c = true := by
              simp only [Bool.or_eq_true] at h5
              simp [domainCharOk]; tauto
            have hlhs : vdsGo rest.head? 0 (c :: rest) false
                = vdsGo rest.head? 1 rest true := by
              simp [vdsGo, h1, h2, h3, h5]
            rw [hlhs, vdsGo_tail rest.head? rest 1 true one_ne_zero]
            have hb1 : (some c != some '.') = true := by simp [h1]
            have hb2 : (c != '.') = true := by simp [h1]
            simp [h1, h3, hok, hb1, hb2, ← all_domain_star rest, Bool.and_assoc]
          · have hok : domainCharOk c = false := by
              simp only [Bool.or_eq_true, not_or, Bool.not_eq_true] at h5
              have hu : c ≠ '_' := fun h => h2 (Or.inl h)
              have hh : c ≠ '-' := fun h => h2 (Or.inr h)
              simp [domainCharOk, h5.1.1, h5.1.2, h5.2, h1, hu, hh]
            have hlhs : vdsGo rest.head? 0 (c :: rest) false = false := by
              simp [vdsGo, h1, h2, h3, h5]
            rw [hlhs]
            simp [hok, h3]

/-! ## Header lookup (`find_header`, uacme.c:71) — claim C9 -/

/-- The claimed lookup rule, written from the spec's words: header lookup by
name is case-insensitive in the header name and returns the value of the
first matching header line. -/
def spec_find_header_ci (headers : List String) (name : String) : Option String :=
  headers.findSome? fun line =>
    let p := name ++ ": "
    if (p.toList.map Char.toLower).isPrefixOf (line.toList.map Char.toLower) then
      some ⟨line.toList.drop p.toList.length⟩
    else none

/-- C9 counterexample: the regex in `find_header` is compiled without
`REG_ICASE`, so a header sent in a different capitalization is not found,
although the claimed case-insensitive lookup finds it. -/
theorem C9_counterexample :
    find_header ["replay-nonce: abc"] "Replay-Nonce" = none ∧
    spec_find_header_ci ["replay-nonce: abc"] "Replay-Nonce" = some "abc" := by
  constructor <;> decide

/-- C9 (functional_correctness, corrected): header lookup in the captured
raw header block is case-SENSITIVE in the header name and returns the value
of the first matching header line. -/
theorem C9_find_header_first_match_case_sensitive
    (pre post : List String) (name v : String)
    (h : ∀ l ∈ pre, ((name ++ ": ").toList.isPrefixOf l.toList) = false) :
    find_header (pre ++ (name ++ ": " ++ v) :: post) name = some v := by
  induction pre with
  | nil =>
    simp only [List.nil_append, find_header, List.findSome?_cons]
    have hsplit : (name ++ ": " ++ v).toList = (name ++ ": ").toList ++ v.toList :=
      String.data_append _ _
    have hp : (name ++ ": ").toList.isPrefixOf (name ++ ": " ++ v).toList = true := by
      rw [hsplit, List.isPrefixOf_iff_prefix]
      exact List.prefix_append _ _
    rw [hp]
    simp only [if_true]
    rw [hsplit, List.drop_left]
    rfl
  | cons l pre ih =>
    have hl := h l (List.mem_cons_self l pre)
    have hrest : ∀ l' ∈ pre, ((name ++ ": ").toList.isPrefixOf l'.toList) = false :=
      fun l' hl' => h l' (List.mem_cons_of_mem l hl')
    simp only [List.cons_append, find_header, List.findSome?_cons] at ih ⊢
    rw [hl]
    simpa using ih hrest

/-- Witness for `C9_find_header_first_match_case_sensitive`. -/
theorem C9_witness :
    (∀ l ∈ ["Content-Type: application/json"],
        (("Location" ++ ": ").toList.isPrefixOf l.toList) = false) ∧
    find_header (["Content-Type: application/json"] ++
        ("Location" ++ ": " ++ "https://a/1") :: ["X: y"]) "Location" =
      some "https://a/1" :=
  ⟨by decide,
   C9_find_header_first_match_case_sensitive ["Content-Type: application/json"]
     ["X: y"] "Location" "https://a/1" (by decide)⟩

/-! ## A minimal JSON value model (collaborator `json.h`)

The JSON parser is a collaborator module; scripted responses carry an
already parsed value.  The three accessors below model `json_find`,
`json_find_string` and `json_compare_string(...) == 0` from `json.h`, all
tolerant of a `NULL` argument as the C versions are. -/

inductive Json where
  | str : String → Json
  | arr : List Json → Json
  | obj : List (String × Json) → Json
  | other : Json

/-- `json_find`: the first field of an object with the given key. -/
def json_find : Option Json → String → Option Json
  | some (Json.obj fields), k => (fields.find? (fun f => f.1 == k)).map (·.2)
  | _, _ => none

/-- `json_find_string`: the field's value when it is a string. -/
def json_find_string (j : Option Json) (k : String) : Option String :=
  match json_find j k with
  | some (Json.str s) => some s
  | _ => none

/-- `json_compare_string(j, k, v) == 0` (field exists, is a string, equals `v`). -/
def json_eq_string (j : Option Json) (k v : String) : Bool :=
  match json_find_string j k with
  | some s => s == v
  | none => false

/-! ## Responses, events and the session state -/

/-- An HTTP response as captured by the curl wrapper (`curldata_t`): status
code, raw header block (as CRLF-terminated lines) and body; `json` is what
`json_parse` would return on the body (`none` when the body is not JSON). -/
structure Resp where
  code : Nat
  headers : List String
  json : Option Json
  body : String

/-- Which of the two protected-header forms `acme_post` builds: by
construction each signed POST carries exactly one of them. -/
inductive HdrKind where
  | jwk : HdrKind
  | kid : HdrKind
  deriving DecidableEq, Repr

/-- Observable events: HTTP GET, signed HTTP POST (with the protected-header
form used), hook invocation `prog method type ident token key_auth → code`,
and a diagnostic message. -/
inductive Ev where
  | get : String → Ev
  | post : String → HdrKind → Ev
  | hook : String → String → String → String → String → String → Int → Ev
  | msgEv : String → Ev
  deriving DecidableEq, Repr

/-- The session state `acme_t` (the fields carrying ACME driver state),
together with the scripted network `net` and the event trace `trace`.
An exhausted script answers every further request with a transport failure,
exactly as a `NULL` return from `curl_get`/`curl_post`. -/
structure St where
  nonce : Option String
  kid : Option String
  json : Option Json
  headers : List String
  body : String
  ctype : Option String
  dir : Option Json
  account : Option Json
  order : Option Json
  net : List (Option Resp)
  trace : List Ev

/-- The fields every `acme_get`/`acme_post` clears on entry. -/
def clearResp (st : St) : St :=
  { st with json := none, headers := [], body := "", ctype := none }

/-- `a->type && strstr(a->type, "json")`. -/
def ctypeHasJson : Option String → Bool
  | some t => strContains t "json"
  | none => false

/-- Storing a received response: the stored nonce is unconditionally
replaced by the response's `Replay-Nonce` header (uacme.c:130 and :228),
the content type by its `Content-Type` header, and the parsed JSON is kept
only when the content type mentions `json`. -/
def storeResp (st : St) (r : Resp) : St :=
  { st with nonce := find_header r.headers "Replay-Nonce",
            ctype := find_header r.headers "Content-Type",
            json := if ctypeHasJson (find_header r.headers "Content-Type")
                    then r.json else none,
            headers := r.headers,
            body := r.body }

/-- Model of `acme_get` (uacme.c:101).  Returns the HTTP status code, or 0
on a missing URL or transport failure. -/
def acme_get (st : St) (url : Option String) : Nat × St :=
  let st := clearResp st
  match url with
  | none => (0, st)
  | some u =>
    let st := { st with trace := st.trace ++ [Ev.get u] }
    match st.net with
    | [] => (0, st)
    | none :: rest => (0, { st with net := rest })
    | some r :: rest => (r.code, storeResp { st with net := rest } r)

/-- The protected-header form `acme_post` chooses (uacme.c:199):
`jws_protected_kid` iff `a->kid && *a->kid`, else `jws_protected_jwk`. -/
def postKind (kid : Option String) : HdrKind :=
  match kid with
  | some k => if k ≠ "" then HdrKind.kid else HdrKind.jwk
  | none => HdrKind.jwk

/-- Model of `acme_post` (uacme.c:161).  If no nonce is stored, the
function warns `need a nonce first` and returns 0 without any network
activity (uacme.c:178).  Otherwise it signs and sends the payload and
stores the response exactly like `acme_get`.  The payload string does not
influence the control flow modelled here. -/
def acme_post (st : St) (url : Option String) (payload : String) : Nat × St :=
  let st := clearResp st
  match st.nonce with
  | none => (0, st)
  | some _ =>
    match url with
    | none => (0, st)
    | some u =>
      let st := { st with trace := st.trace ++ [Ev.post u (postKind st.kid)] }
      match st.net with
      | [] => (0, st)
      | none :: rest => (0, { st with net := rest })
      | some r :: rest => (r.code, storeResp { st with net := rest } r)

/-- Model of `acme_error` (uacme.c:366). -/
def acme_error (st : St) : Bool :=
  match st.json with
  | none => false
  | some j =>
    if (match st.ctype with
        | some t => strcaseeq t "application/problem+json"
        | none => false) then true
    else match json_find (some j) "error" with
         | some (Json.obj _) => true
         | _ => false

/-- Model of `acme_bootstrap` (uacme.c:389): fetch the directory (expect
200), then GET its `newNonce` URL (expect 204), which fills the stored
nonce from that response's `Replay-Nonce` header. -/
def acme_bootstrap (directory : String) (st : St) : Bool × St :=
  let (code, st) := acme_get st (some directory)
  if code ≠ 200 then (false, st)
  else if acme_error st then (false, st)
  else
    let st := { st with dir := st.json, json := none }
    match json_find_string st.dir "newNonce" with
    | none => (false, st)
    | some url =>
      let (code, st) := acme_get st (some url)
      if code ≠ 204 then (false, st)
      else if acme_error st then (false, st)
      else (true, st)

/-! ## Account lifecycle (uacme.c:426-647) -/

/-- Model of `account_new` (uacme.c:426).  `yes` is the `-y` flag, `termsY`
models the operator typing `y` at the interactive terms prompt. -/
def account_new (st : St) (yes : Bool) (email : Option String) (termsY : Bool) :
    Bool × St :=
  match json_find_string st.dir "newAccount" with
  | none => (false, st)
  | some url =>
    let (code, st) := acme_post st (some url) "\x7b\"onlyReturnExisting\":true\x7d"
    if code = 200 then
      match find_header st.headers "Location" with
      | none => (false, st)
      | some loc =>
        (false, { st with kid := some loc,
                          trace := st.trace ++
                            [Ev.msgEv ("Account already exists at " ++ loc)] })
    else if code == 400 &&
        st.json.isSome &&
        (match st.ctype with
         | some t => strcaseeq t "application/problem+json"
         | none => false) &&
        json_eq_string st.json "type"
          "urn:ietf:params:acme:error:accountDoesNotExist" then
      let termsOk :=
        match json_find_string (json_find st.dir "meta") "termsOfService" with
        | some _ => yes || termsY
        | none => true
      if !termsOk then (false, st)
      else
        let payload :=
          match email with
          | some e =>
            if e ≠ "" then
              "\x7b\"termsOfServiceAgreed\":true,\"contact\": [\"mailto:" ++ e ++ "\"]\x7d"
            else "\x7b\"termsOfServiceAgreed\":true\x7d"
          | none => "\x7b\"termsOfServiceAgreed\":true\x7d"
        let (code2, st) := acme_post st (some url) payload
        if code2 = 201 then
          if acme_error st then (false, st)
          else if !json_eq_string st.json "status" "valid" then (false, st)
          else match find_header st.headers "Location" with
            | none => (false, st)
            | some loc => (true, { st with kid := some loc })
        else (false, st)
    else (false, st)

/-- Model of `account_retrieve` (uacme.c:512): POST
`newAccount {onlyReturnExisting:true}`; on 200 with valid status adopt the
`Location` header as the `kid`. -/
def account_retrieve (st : St) : Bool × St :=
  match json_find_string st.dir "newAccount" with
  | none => (false, st)
  | some url =>
    let (code, st) := acme_post st (some url) "\x7b\"onlyReturnExisting\":true\x7d"
    if code = 200 then
      if acme_error st then (false, st)
      else if !json_eq_string st.json "status" "valid" then (false, st)
      else match find_header st.headers "Location" with
        | none => (false, st)
        | some loc =>
          (true, { st with kid := some loc, account := st.json, json := none })
    else (false, st)

/-- A stored contact entry begins, case-insensitively, with `mailto:`
(the C test `value == strcasestr(value, "mailto:")`). -/
def contactIsMailto (cj : Json) : Bool :=
  match cj with
  | Json.str s => "mailto:".toList.isPrefixOf (s.toList.map Char.toLower)
  | _ => false

/-- The contact entry differs (case-insensitively) from the requested
email once its `mailto:` tag is stripped. -/
def contactEmailDiffers (email : String) (cj : Json) : Bool :=
  match cj with
  | Json.str s => !strcaseeq ⟨s.toList.drop 7⟩ email
  | _ => true

/-- The POST issued by `account_update` when the contact set diverges. -/
def account_update_post (st : St) (needUpdate : Bool) (email : Option String) :
    Bool × St :=
  if needUpdate then
    let payload :=
      match email with
      | some e => "\x7b\"contact\": [\"mailto:" ++ e ++ "\"]\x7d"
      | none => "\x7b\"contact\": []\x7d"
    let (code, st) := acme_post st st.kid payload
    if code ≠ 200 then (false, st)
    else if acme_error st then (false, st)
    else (true, st)
  else (true, st)

/-- Model of `account_update` (uacme.c:563). -/
def account_update (st : St) (email : Option String) : Bool × St :=
  let contacts := json_find st.account "contact"
  let isArr :=
    match contacts with
    | some (Json.arr _) => true
    | none => true
    | some _ => false
  if !isArr then (false, st)
  else
    let l := match contacts with | some (Json.arr l) => l | _ => []
    let emailStr := email.getD ""
    if emailStr ≠ "" then
      if !(l.all contactIsMailto) then (false, st)
      else account_update_post st (l.isEmpty || l.any (contactEmailDiffers emailStr))
        (some emailStr)
    else account_update_post st (!l.isEmpty) none

/-- Model of `account_deactivate` (uacme.c:632). -/
def account_deactivate (st : St) : Bool × St :=
  let (code, st) := acme_post st st.kid "\x7b\"status\": \"deactivated\"\x7d"
  if code ≠ 200 then (false, st)
  else if acme_error st then (false, st)
  else (true, st)

/-! ## Renewal check and run environment -/

/-- A parseable on-disk certificate, reduced to what the renewal decision
inspects: its SAN list and its remaining validity in days. -/
structure CertFile where
  sans : List String
  remainingDays : Int

/-- Equality of SAN sets. -/
def sanSetEq (a b : List String) : Bool :=
  a.all (fun x => b.contains x) && b.all (fun x => a.contains x)

/-- Modelled from the spec: `cert_valid` lives in the crypto collaborator
module, not in `uacme.c`.  Spec §4.10: "`cert_valid(dir, names, min_days)`
… returns false if absent, unparseable, expires in under `min_days`, or its
SAN set does not equal `names`."  An absent or unparseable certificate is
`none`. -/
def cert_valid (cert : Option CertFile) (names : List String) (minDays : Int) :
    Bool :=
  match cert with
  | none => false
  | some c => !(c.remainingDays < minDays) && sanSetEq c.sans names

/-- The environment of a run: inputs, collaborator results and oracles.
`hookFn` models running the hook executable: from `(method, type, ident,
token, key_auth)` to `hook_run`'s return value (the child's exit status, or
a negative value when the child could not be spawned or did not exit
normally).  `promptFn` models the interactive challenge prompt, `termsY`
the interactive terms prompt, `sha256_base64url` the crypto helper of that
name, `thumb` the result of `jws_thumbprint(a->key)`, `csr` the result of
`csr_gen`, `crt` the result of `cert_der_base64url`, `certSaveOk` the
result of `cert_save`, and the trailing booleans the outcomes of the
filesystem checks in `main`. -/
structure Params where
  net : List (Option Resp)
  directory : String
  email : Option String
  yes : Bool
  termsY : Bool
  force : Bool
  days : Int
  names : List String
  cert : Option CertFile
  hookProg : Option String
  hookFn : String → String → String → String → String → Int
  promptFn : String → String → String → String → Bool
  sha256_base64url : String → String
  thumb : Option String
  csr : Option String
  crt : Option String
  certSaveOk : Bool
  hookAccessOk : Bool
  confdirOk : Bool
  keydirOk : Bool
  keyLoadOk : Bool
  dkeydirOk : Bool
  certdirOk : Bool
  dkeyLoadOk : Bool
  revokeFileReadable : Bool

/-- `a->hook && strlen(a->hook) > 0`: the configured hook program, if any. -/
def hookConfigured (P : Params) : Option String :=
  match P.hookProg with
  | some h => if h ≠ "" then some h else none
  | none => none

/-! ## Authorization & challenge driver (uacme.c:649-849) -/

/-- The challenge polling loop (uacme.c:794-821), with a fuel bound.  Each
iteration performs one `acme_post` and so consumes one scripted response;
instantiating the fuel with `st.net.length + 1` therefore makes fuel
exhaustion unreachable: the loop always first hits a failed poll (an
exhausted script answers with a transport failure, giving code 0), a
`valid` status, or an unexpected status.  Returns `chlg_done`. -/
def pollChallenge (u : String) : Nat → St → Bool × St
  | 0, st => (false, st)
  | fuel+1, st =>
    let (code, st) := acme_post st (some u) ""
    if code ≠ 200 then (false, st)
    else
      let status := json_find_string st.json "status"
      if status == some "valid" then (true, st)
      else if !(status == some "processing" || status == some "pending") then
        (false, st)
      else pollChallenge u fuel st

/-- The accepted-challenge path (uacme.c:788-833): trigger the challenge
with body `{}` (on trigger failure the poll loop is skipped), poll it,
then — when a hook is configured — invoke the hook once more with `done`
on success or `failed` on failure and the same remaining arguments, its
exit code ignored. -/
def chal_attempt (P : Params) (u ty iv tok ka : String) (st : St) : Bool × St :=
  let (code, st) := acme_post st (some u) "\x7b\x7d"
  let (done, st) :=
    if code ≠ 200 then (false, st)
    else pollChallenge u (st.net.length + 1) st
  match hookConfigured P with
  | some prog =>
    let m := if done then "done" else "failed"
    let r := P.hookFn m ty iv tok ka
    (done, { st with trace := st.trace ++ [Ev.hook prog m ty iv tok ka r] })
  | none => (done, st)

/-- The challenge loop of `authorize` (uacme.c:722-835): for each pending
challenge compute the key-authorization (`dns-01` hashes
`token.thumbprint`, every other type uses it verbatim, uacme.c:739), then
ask the hook (argument vector `[hook, "begin", type, ident, token,
key_auth]`) or the operator; exit code 0 accepts, positive declines (next
challenge), negative aborts the authorization.  Returns `chlg_done`. -/
def chalLoop (P : Params) (tp iv : String) : List Json → St → Bool × St
  | [], st => (false, st)
  | ch :: rest, st =>
    if json_eq_string (some ch) "status" "pending" then
      match json_find_string (some ch) "url",
            json_find_string (some ch) "type",
            json_find_string (some ch) "token" with
      | some u, some ty, some tok =>
        let ka := if ty = "dns-01" then P.sha256_base64url (tok ++ "." ++ tp)
                  else tok ++ "." ++ tp
        match hookConfigured P with
        | some prog =>
          let r := P.hookFn "begin" ty iv tok ka
          let st := { st with trace :=
            st.trace ++ [Ev.hook prog "begin" ty iv tok ka r] }
          if r < 0 then (false, st)
          else if r > 0 then chalLoop P tp iv rest st
          else chal_attempt P u ty iv tok ka st
        | none =>
          if P.promptFn ty iv tok ka then chal_attempt P u ty iv tok ka st
          else chalLoop P tp iv rest st
      | _, _, _ => (false, st)
    else chalLoop P tp iv rest st

/-- The per-authorization loop of `authorize` (uacme.c:667-841): fetch each
authorization with an empty-payload POST, skip `valid` ones, require
`pending`, a `dns` identifier with a non-empty value and a challenge
array, then run the challenge loop; an authorization whose challenge loop
does not complete fails the whole driver. -/
def authLoop (P : Params) (tp : String) : List Json → St → Bool × St
  | [], st => (true, st)
  | a :: rest, st =>
    match a with
    | Json.str u =>
      let (code, st) := acme_post st (some u) ""
      if code ≠ 200 then (false, st)
      else
        let status := json_find_string st.json "status"
        if status == some "valid" then authLoop P tp rest st
        else if !(status == some "pending") then (false, st)
        else
          let ident := json_find st.json "identifier"
          if !json_eq_string ident "type" "dns" then (false, st)
          else match json_find_string ident "value" with
          | none => (false, st)
          | some iv =>
            if iv = "" then (false, st)
            else match json_find st.json "challenges" with
            | some (Json.arr chlgs) =>
              let st := { st with json := none }
              let (done, st) := chalLoop P tp iv chlgs st
              if done then authLoop P tp rest st else (false, st)
            | _ => (false, st)
    | _ => (false, st)

/-- Model of `authorize` (uacme.c:649). -/
def authorize (P : Params) (st : St) : Bool × St :=
  match json_find st.order "authorizations" with
  | some (Json.arr auths) =>
    match P.thumb with
    | none => (false, st)
    | some tp => authLoop P tp auths st
  | _ => (false, st)

/-! ## Order driver (`cert_issue`, uacme.c:851) and revocation -/

/-- Model of `identifiers` (uacme.c:334): build the newOrder JSON payload
(the C code chops the trailing character — the comma, or for an empty list
the opening bracket — before closing the array). -/
def identifiers (names : List String) : String :=
  let base := "\x7b\"identifiers\":["
  let tmp := names.foldl
    (fun acc n => acc ++ "\x7b\"type\":\"dns\",\"value\":\"" ++ n ++ "\"\x7d,") base
  tmp.dropRight 1 ++ "]\x7d"

/-- The poll-to-`ready` loop (uacme.c:901-930), fuel-bounded like
`pollChallenge`; on `ready` the order document is re-adopted. -/
def pollOrderReady (u : String) : Nat → St → Bool × St
  | 0, st => (false, st)
  | fuel+1, st =>
    let (code, st) := acme_post st (some u) ""
    if code ≠ 200 then (false, st)
    else
      let status := json_find_string st.json "status"
      if status == some "ready" then
        (true, { st with order := st.json, json := none })
      else if !(status == some "pending") then (false, st)
      else pollOrderReady u fuel st

/-- The poll-to-`valid` loop (uacme.c:960-989). -/
def pollOrderValid (u : String) : Nat → St → Bool × St
  | 0, st => (false, st)
  | fuel+1, st =>
    let (code, st) := acme_post st (some u) ""
    if code ≠ 200 then (false, st)
    else
      let status := json_find_string st.json "status"
      if status == some "valid" then
        (true, { st with order := st.json, json := none })
      else if !(status == some "processing") then (false, st)
      else pollOrderValid u fuel st

/-- Model of `cert_issue` (uacme.c:851): create the order (expect 201 with
a `Location`), run the authorization driver and poll to `ready` when the
order is `pending`, finalize with the CSR (expect 200), poll to `valid`,
fetch the certificate and save it. -/
def cert_issue (P : Params) (st : St) : Bool × St :=
  match json_find_string st.dir "newOrder" with
  | none => (false, st)
  | some url =>
    let (code, st) := acme_post st (some url) (identifiers P.names)
    if code ≠ 201 then (false, st)
    else
      let status := json_find_string st.json "status"
      if !(status == some "pending" || status == some "ready") then (false, st)
      else match find_header st.headers "Location" with
      | none => (false, st)
      | some orderurl =>
        let st := { st with order := st.json, json := none }
        let (ok, st) :=
          if status == some "ready" then (true, st)
          else
            let (ok, st) := authorize P st
            if !ok then (false, st)
            else pollOrderReady orderurl (st.net.length + 1) st
        if !ok then (false, st)
        else match P.csr with
        | none => (false, st)
        | some csr =>
          match json_find_string st.order "finalize" with
          | none => (false, st)
          | some fin =>
            let (code, st) := acme_post st (some fin)
              ("\x7b\"csr\": \"" ++ csr ++ "\"\x7d")
            if code ≠ 200 then (false, st)
            else if acme_error st then (false, st)
            else
              let (ok, st) := pollOrderValid orderurl (st.net.length + 1) st
              if !ok then (false, st)
              else match json_find_string st.order "certificate" with
              | none => (false, st)
              | some certurl =>
                let (code, st) := acme_post st (some certurl) ""
                if code ≠ 200 then (false, st)
                else if acme_error st then (false, st)
                else if !P.certSaveOk then (false, st)
                else (true, st)

/-- Model of `cert_revoke` (uacme.c:1025); the dispatcher always passes
reason code 0 (uacme.c:1420). -/
def cert_revoke (P : Params) (reason : Int) (st : St) : Bool × St :=
  match P.crt with
  | none => (false, st)
  | some crt =>
    match json_find_string st.dir "revokeCert" with
    | none => (false, st)
    | some url =>
      let (code, st) := acme_post st (some url)
        ("\x7b\"certificate\":\"" ++ crt ++ "\",\"reason\":" ++ toString reason ++ "\x7d")
      if code ≠ 200 then (false, st)
      else if acme_error st then (false, st)
      else (true, st)

/-! ## Top-level dispatcher (`main`, uacme.c:1115) -/

inductive Action where
  | new : Action
  | update : Action
  | deactivate : Action
  | issue : Action
  | revoke : Action
  deriving DecidableEq, Repr

/-- A fresh session state over a network script (`acme_t` is zeroed by
`memset` in `main`). -/
def initSt (net : List (Option Resp)) : St :=
  { nonce := none, kid := none, json := none, headers := [], body := "",
    ctype := none, dir := none, account := none, order := none,
    net := net, trace := [] }

/-- The network-facing pipeline of the `issue` action
(`acme_bootstrap && account_retrieve && cert_issue`, uacme.c:1412). -/
def issueFlow (P : Params) (st : St) : Nat × St :=
  let (ok, st) := acme_bootstrap P.directory st
  if !ok then (1, st)
  else
    let (ok, st) := account_retrieve st
    if !ok then (1, st)
    else
      let (ok, st) := cert_issue P st
      (if ok then 0 else 1, st)

/-- Model of the action dispatch in `main` (uacme.c:1115): argument
validation, the hook access / directory / key checks, the renewal-skip
check for `issue` (uacme.c:1397-1410), then the per-action pipeline.  Exit
status 0 models `EXIT_SUCCESS`, 1 models `EXIT_FAILURE`. -/
def runAction (P : Params) (act : Action) : Nat × St :=
  let st := initSt P.net
  let argsOk :=
    match act with
    | Action.issue => !P.names.isEmpty && P.names.all validate_domain_str
    | Action.revoke => P.revokeFileReadable
    | _ => true
  if !argsOk then (1, st)
  else if !P.hookAccessOk then (1, st)
  else if !(P.confdirOk && P.keydirOk && P.keyLoadOk) then (1, st)
  else
    match act with
    | Action.new =>
      let (ok, st) := acme_bootstrap P.directory st
      if !ok then (1, st)
      else
        let (ok, st) := account_new st P.yes P.email P.termsY
        (if ok then 0 else 1, st)
    | Action.update =>
      let (ok, st) := acme_bootstrap P.directory st
      if !ok then (1, st)
      else
        let (ok, st) := account_retrieve st
        if !ok then (1, st)
        else
          let (ok, st) := account_update st P.email
          (if ok then 0 else 1, st)
    | Action.deactivate =>
      let (ok, st) := acme_bootstrap P.directory st
      if !ok then (1, st)
      else
        let (ok, st) := account_retrieve st
        if !ok then (1, st)
        else
          let (ok, st) := account_deactivate st
          (if ok then 0 else 1, st)
    | Action.issue =>
      if !P.dkeydirOk then (1, st)
      else if !P.certdirOk then (1, st)
      else if !P.dkeyLoadOk then (1, st)
      else if cert_valid P.cert P.names P.days && !P.force then (0, st)
      else issueFlow P st
    | Action.revoke =>
      let (ok, st) := acme_bootstrap P.directory st
      if !ok then (1, st)
      else
        let (ok, st) := account_retrieve st
        if !ok then (1, st)
        else
          let (ok, st) := cert_revoke P 0 st
          (if ok then 0 else 1, st)

/-! ## Basic lemmas about the two HTTP primitives -/

theorem acme_get_frame (st : St) (u : String) :
    (acme_get st (some u)).2.trace = st.trace ++ [Ev.get u] ∧
    (acme_get st (some u)).2.dir = st.dir ∧
    (acme_get st (some u)).2.kid = st.kid ∧
    (acme_get st (some u)).2.order = st.order ∧
    (acme_get st (some u)).2.account = st.account := by
  cases hn : st.net with
  | nil => simp [acme_get, clearResp, storeResp, hn]
  | cons o rest => cases o <;> simp [acme_get, clearResp, storeResp, hn]

theorem acme_get_none_url (st : St) : acme_get st none = (0, clearResp st) := by
  simp [acme_get, clearResp]

/-- With no stored nonce, `acme_post` performs no network request at all
(the script and the trace are untouched) and returns 0. -/
theorem acme_post_no_nonce (st : St) (url : Option String) (p : String)
    (h : st.nonce = none) : acme_post st url p = (0, clearResp st) := by
  simp [acme_post, clearResp, h]

theorem acme_post_frame (st : St) (url : Option String) (p : String) :
    (acme_post st url p).2.kid = st.kid ∧
    (acme_post st url p).2.dir = st.dir ∧
    (acme_post st url p).2.order = st.order ∧
    (acme_post st url p).2.account = st.account ∧
    ∃ Δ, (acme_post st url p).2.trace = st.trace ++ Δ ∧
      ∀ e ∈ Δ, ∃ u, url = some u ∧ e = Ev.post u (postKind st.kid) := by
  cases hnc : st.nonce with
  | none =>
    rw [acme_post_no_nonce st url p hnc]
    exact ⟨rfl, rfl, rfl, rfl, [], by simp [clearResp], by simp⟩
  | some n =>
    cases url with
    | none => simp [acme_post, clearResp, hnc]
    | some u =>
      cases hn : st.net with
      | nil =>
        simp [acme_post, clearResp, storeResp, hnc, hn]
      | cons o rest =>
        cases o <;> simp [acme_post, clearResp, storeResp, hnc, hn]

/-- A transmitted POST that receives a response stores that response's
`Replay-Nonce` header as the new nonce — unconditionally. -/
theorem acme_post_resp_nonce (st : St) (u p n : String) (r : Resp)
    (rest : List (Option Resp)) (h : st.nonce = some n)
    (hn : st.net = some r :: rest) :
    (acme_post st (some u) p).1 = r.code ∧
    (acme_post st (some u) p).2.nonce = find_header r.headers "Replay-Nonce" := by
  simp [acme_post, clearResp, storeResp, h, hn]

/-- Likewise for GET. -/
theorem acme_get_resp_nonce (st : St) (u : String) (r : Resp)
    (rest : List (Option Resp)) (hn : st.net = some r :: rest) :
    (acme_get st (some u)).1 = r.code ∧
    (acme_get st (some u)).2.nonce = find_header r.headers "Replay-Nonce" := by
  simp [acme_get, clearResp, storeResp, hn]

theorem acme_get_net (st : St) (url : Option String) :
    ∃ k, (acme_get st url).2.net = st.net.drop k := by
  cases url with
  | none => exact ⟨0, by simp [acme_get, clearResp]⟩
  | some u =>
    cases hn : st.net with
    | nil => exact ⟨0, by simp [acme_get, clearResp, hn]⟩
    | cons o rest =>
      cases o <;> exact ⟨1, by simp [acme_get, clearResp, storeResp, hn]⟩

theorem acme_post_net (st : St) (url : Option String) (p : String) :
    ∃ k, (acme_post st url p).2.net = st.net.drop k := by
  cases hnc : st.nonce with
  | none => exact ⟨0, by rw [acme_post_no_nonce st url p hnc]; simp [clearResp]⟩
  | some n =>
    cases url with
    | none => exact ⟨0, by simp [acme_post, clearResp, hnc]⟩
    | some u =>
      cases hn : st.net with
      | nil => exact ⟨0, by simp [acme_post, clearResp, hnc, hn]⟩
      | cons o rest =>
        cases o <;> exact ⟨1, by simp [acme_post, clearResp, storeResp, hnc, hn]⟩

/-- The headers stored by a POST are those of the consumed response (or
empty when nothing was received). -/
theorem acme_post_headers (st : St) (url : Option String) (p : String) :
    (acme_post st url p).2.headers = [] ∨
    ∃ r rest, st.net = some r :: rest ∧
      (acme_post st url p).2.headers = r.headers := by
  cases hnc : st.nonce with
  | none => left; rw [acme_post_no_nonce st url p hnc]; simp [clearResp]
  | some n =>
    cases url with
    | none => left; simp [acme_post, clearResp, hnc]
    | some u =>
      cases hn : st.net with
      | nil => left; simp [acme_post, clearResp, hnc, hn]
      | cons o rest =>
        cases o with
        | none => left; simp [acme_post, clearResp, hnc, hn]
        | some r =>
          right
          exact ⟨r, rest, rfl, by simp [acme_post, clearResp, storeResp, hnc, hn]⟩

/-- A successful `acme_bootstrap` has performed a GET to the directory's
`newNonce` URL (the refill point of the nonce discipline). -/
theorem acme_bootstrap_success (d : String) (st : St)
    (h : (acme_bootstrap d st).1 = true) :
    ∃ nn, json_find_string ((acme_bootstrap d st).2.dir) "newNonce" = some nn ∧
      Ev.get nn ∈ (acme_bootstrap d st).2.trace := by
  unfold acme_bootstrap at h ⊢
  revert h
  generalize h1 : acme_get st (some d) = g1
  obtain ⟨c1, st1⟩ := g1
  intro h
  simp only [] at h ⊢
  by_cases hc1 : c1 ≠ 200
  · rw [if_pos hc1] at h; simp at h
  · rw [if_neg hc1] at h ⊢
    by_cases he : acme_error st1
    · rw [if_pos he] at h; simp at h
    · rw [if_neg he] at h ⊢
      cases hnn : json_find_string st1.json "newNonce" with
      | none =>
        rw [hnn] at h
        simp at h
      | some nn =>
        rw [hnn] at h
        simp only [] at h ⊢
        revert h
        generalize h2 :
          acme_get { st1 with dir := st1.json, json := none } (some nn) = g2
        obtain ⟨c2, st3⟩ := g2
        intro h
        simp only [] at h ⊢
        by_cases hc2 : c2 ≠ 204
        · rw [if_pos hc2] at h; simp at h
        · rw [if_neg hc2] at h ⊢
          by_cases he2 : acme_error st3
          · rw [if_pos he2] at h; simp at h
          · rw [if_neg he2]
            have hfr := acme_get_frame { st1 with dir := st1.json, json := none } nn
            rw [h2] at hfr
            refine ⟨nn, ?_, ?_⟩
            · rw [hfr.2.1]; exact hnn
            · rw [hfr.1]; simp

/-- The exact result of a transmitted POST that receives a response. -/
theorem acme_post_resp_eq (st : St) (u p n : String) (r : Resp)
    (rest : List (Option Resp)) (h : st.nonce = some n)
    (hn : st.net = some r :: rest) :
    acme_post st (some u) p =
      (r.code,
        storeResp
          { clearResp st with
              net := rest,
              trace := st.trace ++ [Ev.post u (postKind st.kid)] }
          r) := by
  simp [acme_post, clearResp, storeResp, h, hn]

/-! ## Claims C1 and C10: the nonce discipline -/

/-- The refill rule claimed by C1, stated over the embedding: a signed POST
that starts with no stored nonce performs a GET (to the directory's
`newNonce` URL) — i.e. some `Ev.get` event appears in the trace of
`acme_post`. -/
def specPostRefillsNonce : Prop :=
  ∀ (st : St) (u p : String), st.nonce = none →
    ∃ v, Ev.get v ∈ (acme_post st (some u) p).2.trace

/-- A scripted 204 response carrying a fresh nonce. -/
def respNX : Resp :=
  { code := 204, headers := ["Replay-Nonce: NX"], json := none, body := "" }

/-- A concrete session state with no stored nonce, a live network script
and a directory document that does contain a `newNonce` URL. -/
def stNoNonce : St :=
  { initSt [some respNX] with
      dir := some (Json.obj [("newNonce", Json.str "https://a/nn")]) }

/-- C1 counterexample: with no stored nonce, `acme_post` warns
`need a nonce first` and returns 0 — it performs no GET to `newNonce` (nor
any other request), even though the script could answer one; the refill
claimed by C1 does not happen inside the POST path. -/
theorem C1_counterexample : ¬ specPostRefillsNonce := by
  intro h
  obtain ⟨v, hv⟩ := h stNoNonce "https://a/x" "\x7b\x7d" rfl
  rw [acme_post_no_nonce stNoNonce (some "https://a/x") "\x7b\x7d" rfl] at hv
  simp [clearResp, stNoNonce, initSt] at hv

/-- C1 (invariants, corrected): (a) with no stored nonce a signed POST is
not transmitted at all — `acme_post` makes no network request, leaves the
script and trace untouched and fails with 0 (so a POST that is actually
sent always starts from a stored nonce); (b) after a transmitted POST
receives a response, the stored nonce is exactly the response's
`Replay-Nonce` header (absent when the header is absent); (c) the refill
from the directory's `newNonce` URL happens only in `acme_bootstrap`, at
the start of every action: a successful bootstrap has performed a GET to
the directory's `newNonce` URL. -/
theorem C1_nonce_discipline :
    (∀ (st : St) (u p : String), st.nonce = none →
      acme_post st (some u) p = (0, clearResp st) ∧
      (clearResp st).trace = st.trace ∧ (clearResp st).net = st.net) ∧
    (∀ (st : St) (u p n : String) (r : Resp) (rest : List (Option Resp)),
      st.nonce = some n → st.net = some r :: rest →
      (acme_post st (some u) p).2.nonce = find_header r.headers "Replay-Nonce") ∧
    (∀ (d : String) (st : St), (acme_bootstrap d st).1 = true →
      ∃ nn, json_find_string ((acme_bootstrap d st).2.dir) "newNonce" = some nn ∧
        Ev.get nn ∈ (acme_bootstrap d st).2.trace) := by
  refine ⟨?_, ?_, ?_⟩
  · intro st u p h
    exact ⟨acme_post_no_nonce st (some u) p h, rfl, rfl⟩
  · intro st u p n r rest h hn
    exact (acme_post_resp_nonce st u p n r rest h hn).2
  · exact acme_bootstrap_success

/-- A scripted 200 response carrying a fresh nonce `NZ`. -/
def respNZ : Resp :=
  { code := 200, headers := ["Replay-Nonce: NZ"], json := none, body := "" }

/-- A concrete state holding nonce `N0` with `respNZ` scripted next. -/
def stWithNonce : St := { initSt [some respNZ] with nonce := some "N0" }

/-- Witness for `C1_nonce_discipline` (part (b) at a concrete state). -/
theorem C1_witness :
    stWithNonce.nonce = some "N0" ∧
    (acme_post stWithNonce (some "https://a/x") "").2.nonce = some "NZ" := by
  refine ⟨rfl, ?_⟩
  rw [C1_nonce_discipline.2.1 stWithNonce "https://a/x" "" "N0" respNZ [] rfl rfl]
  decide

/-- C10 (error_handling, confirmed): both `acme_get` and `acme_post`
unconditionally replace the stored nonce with the `Replay-Nonce` header of
the response just received (leaving it empty when the header is absent); a
subsequent `acme_post` with an empty nonce performs no network request at
all and returns 0; and every caller of `acme_post` treats that 0 as
failure — with no stored nonce, `account_new`, `account_retrieve`, the
update POST, `account_deactivate`, `cert_issue` and `cert_revoke` all
fail. -/
theorem C10_nonce_replacement :
    (∀ (st : St) (u : String) (r : Resp) (rest : List (Option Resp)),
      st.net = some r :: rest →
      (acme_get st (some u)).2.nonce = find_header r.headers "Replay-Nonce") ∧
    (∀ (st : St) (u p n : String) (r : Resp) (rest : List (Option Resp)),
      st.nonce = some n → st.net = some r :: rest →
      (acme_post st (some u) p).2.nonce = find_header r.headers "Replay-Nonce") ∧
    (∀ (st : St) (url : Option String) (p : String), st.nonce = none →
      acme_post st url p = (0, clearResp st) ∧
      (clearResp st).trace = st.trace ∧ (clearResp st).net = st.net) ∧
    (∀ (st : St) (P : Params) (yes termsY : Bool) (email : Option String),
      st.nonce = none →
      (account_new st yes email termsY).1 = false ∧
      (account_retrieve st).1 = false ∧
      (account_update_post st true email).1 = false ∧
      (account_deactivate st).1 = false ∧
      (cert_issue P st).1 = false ∧
      (cert_revoke P 0 st).1 = false) := by
  refine ⟨?_, ?_, ?_, ?_⟩
  · intro st u r rest hn
    exact (acme_get_resp_nonce st u r rest hn).2
  · intro st u p n r rest h hn
    exact (acme_post_resp_nonce st u p n r rest h hn).2
  · intro st url p h
    exact ⟨acme_post_no_nonce st url p h, rfl, rfl⟩
  · intro st P yes termsY email h
    refine ⟨?_, ?_, ?_, ?_, ?_, ?_⟩
    · unfold account_new
      cases json_find_string st.dir "newAccount" with
      | none => rfl
      | some url => simp [acme_post_no_nonce st (some url) _ h, clearResp]
    · unfold account_retrieve
      cases json_find_string st.dir "newAccount" with
      | none => rfl
      | some url => simp [acme_post_no_nonce st (some url) _ h, clearResp]
    · unfold account_update_post
      cases email with
      | none => simp [acme_post_no_nonce st st.kid _ h, clearResp]
      | some e => simp [acme_post_no_nonce st st.kid _ h, clearResp]
    · unfold account_deactivate
      simp [acme_post_no_nonce st st.kid _ h, clearResp]
    · unfold cert_issue
      cases json_find_string st.dir "newOrder" with
      | none => rfl
      | some url => simp [acme_post_no_nonce st (some url) _ h, clearResp]
    · unfold cert_revoke
      cases P.crt with
      | none => rfl
      | some crt =>
        cases json_find_string st.dir "revokeCert" with
        | none => rfl
        | some url => simp [acme_post_no_nonce st (some url) _ h, clearResp]

/-- A scripted 200 response carrying no `Replay-Nonce` header. -/
def respPlain : Resp :=
  { code := 200, headers := ["Content-Type: text/plain"], json := none, body := "" }

/-- Witness for `C10_nonce_replacement` (the `acme_get` part at a concrete
state whose response carries no `Replay-Nonce` header). -/
theorem C10_witness :
    (initSt [some respPlain]).net = some respPlain :: [] ∧
    (acme_get (initSt [some respPlain]) (some "https://a/d")).2.nonce = none := by
  refine ⟨rfl, ?_⟩
  rw [C10_nonce_replacement.1 (initSt [some respPlain]) "https://a/d" respPlain [] rfl]
  decide

/-! ## Claim C7: renewal skip -/

/-- C7 (functional_correctness, confirmed): when the on-disk certificate is
still valid for the requested names and days (`cert_valid`, modelled from
spec §4.10) and the directory/key checks pass, `issue` without `--force`
exits 0 having made no HTTP call at all (the final state is the untouched
initial state, whose trace is empty); with `--force` the full issue
pipeline (`acme_bootstrap`, `account_retrieve`, `cert_issue`) is
executed. -/
theorem C7_renewal_skip (P : Params)
    (hnames : (!P.names.isEmpty && P.names.all validate_domain_str) = true)
    (hhook : P.hookAccessOk = true) (hconf : P.confdirOk = true)
    (hkeydir : P.keydirOk = true) (hkey : P.keyLoadOk = true)
    (hdkeydir : P.dkeydirOk = true) (hcertdir : P.certdirOk = true)
    (hdkey : P.dkeyLoadOk = true)
    (hcert : cert_valid P.cert P.names P.days = true) :
    (P.force = false →
      runAction P Action.issue = (0, initSt P.net) ∧ (initSt P.net).trace = []) ∧
    (P.force = true → runAction P Action.issue = issueFlow P (initSt P.net)) := by
  constructor <;> intro hf <;>
    (delta runAction
     simp [hnames, hhook, hconf, hkeydir, hkey, hdkeydir, hcertdir,
       hdkey, hcert, hf, initSt])

/-- Concrete parameters for the renewal-skip scenario: a certificate for
`example.com` with 60 remaining days against a 30-day threshold. -/
def skipParams : Params :=
  { net := [], directory := "https://a/dir", email := none, yes := true,
    termsY := false, force := false, days := 30, names := ["example.com"],
    cert := some { sans := ["example.com"], remainingDays := 60 },
    hookProg := none, hookFn := fun _ _ _ _ _ => 0,
    promptFn := fun _ _ _ _ => false, sha256_base64url := fun s => s,
    thumb := none, csr := none, crt := none, certSaveOk := true,
    hookAccessOk := true, confdirOk := true, keydirOk := true, keyLoadOk := true,
    dkeydirOk := true, certdirOk := true, dkeyLoadOk := true,
    revokeFileReadable := true }

/-- Witness for `C7_renewal_skip`. -/
theorem C7_witness :
    cert_valid skipParams.cert skipParams.names skipParams.days = true ∧
    runAction skipParams Action.issue = (0, initSt skipParams.net) :=
  ⟨by decide,
   ((C7_renewal_skip skipParams (by decide) rfl rfl rfl rfl rfl rfl rfl
      (by decide)).1 rfl).1⟩

/-! ## Claim C8: `new` fails when the account already exists -/

/-- C8 (error_handling, confirmed): when the initial
`newAccount {onlyReturnExisting:true}` POST of `account_new` is answered
with HTTP 200 carrying a `Location` header, `account_new` adopts that
location only to report `Account already exists at <Location>` and returns
false — it never returns success on 200; and the `new` action exits 0 only
when `account_new` succeeded, so this failure makes the whole process exit
non-zero. -/
theorem C8_new_fails_on_existing (st : St) (url loc n : String) (r : Resp)
    (rest : List (Option Resp)) (yes termsY : Bool) (email : Option String)
    (hurl : json_find_string st.dir "newAccount" = some url)
    (hn : st.nonce = some n) (hnet : st.net = some r :: rest)
    (hcode : r.code = 200)
    (hloc : find_header r.headers "Location" = some loc) :
    ((account_new st yes email termsY).1 = false ∧
     (account_new st yes email termsY).2.kid = some loc ∧
     Ev.msgEv ("Account already exists at " ++ loc) ∈
       (account_new st yes email termsY).2.trace) ∧
    (∀ P : Params, (runAction P Action.new).1 = 0 →
      (acme_bootstrap P.directory (initSt P.net)).1 = true ∧
      (account_new (acme_bootstrap P.directory (initSt P.net)).2
        P.yes P.email P.termsY).1 = true) := by
  constructor
  · unfold account_new
    rw [hurl]
    simp only []
    rw [acme_post_resp_eq st url _ n r rest hn hnet]
    simp only [storeResp, clearResp, hcode, hloc]
    simp [List.mem_append]
  · intro P h
    delta runAction at h
    revert h
    generalize hb : acme_bootstrap P.directory (initSt P.net) = gb
    obtain ⟨okb, stb⟩ := gb
    generalize ha : account_new stb P.yes P.email P.termsY = ga
    obtain ⟨oka, sta⟩ := ga
    intro h
    simp only [] at h
    split_ifs at h <;> simp_all

/-- A concrete ACME directory document. -/
def dirDoc : Json := Json.obj [
  ("newNonce", Json.str "https://a/nn"),
  ("newAccount", Json.str "https://a/na"),
  ("newOrder", Json.str "https://a/no"),
  ("revokeCert", Json.str "https://a/rc")]

/-- A 200 response to `newAccount {onlyReturnExisting:true}` carrying the
existing account's location. -/
def respAcct : Resp :=
  { code := 200, headers := ["Replay-Nonce: N2", "Location: https://a/acct/1"],
    json := none, body := "" }

/-- A bootstrapped state about to POST `newAccount`. -/
def stC8 : St :=
  { initSt [some respAcct] with nonce := some "N1", dir := some dirDoc }

/-- Witness for `C8_new_fails_on_existing`. -/
theorem C8_witness :
    stC8.nonce = some "N1" ∧
    (account_new stC8 true none false).1 = false ∧
    Ev.msgEv ("Account already exists at " ++ "https://a/acct/1") ∈
      (account_new stC8 true none false).2.trace := by
  have h := (C8_new_fails_on_existing stC8 "https://a/na" "https://a/acct/1" "N1"
    respAcct [] true false none (by decide) rfl rfl rfl (by decide)).1
  exact ⟨rfl, h.1, h.2.2⟩

/-! ## The hook lifecycle (claims C2, C3, C4)

`beginPaired` checks, over the subsequence of hook-invocation events, that
every `begin` invocation that returned 0 is immediately followed by exactly
one `done` or `failed` invocation with identical program, type, identifier,
token and key-authorization arguments, and that no `done`/`failed`
invocation appears unpaired. -/

def isHookEv : Ev → Bool
  | Ev.hook _ _ _ _ _ _ _ => true
  | _ => false

def hookFilter (t : List Ev) : List Ev := t.filter isHookEv

/-- `e` is a `done`/`failed` invocation matching an accepted `begin`. -/
def pairMatches (hk ty iv tok ka : String) (e : Ev) : Bool :=
  match e with
  | Ev.hook hk' m ty' iv' tok' ka' _ =>
    (m == "done" || m == "failed") && hk' == hk && ty' == ty && iv' == iv &&
      tok' == tok && ka' == ka
  | _ => false

/-- The pairing automaton: the state is `none` (no pending accepted
`begin`) or `some (prog, type, ident, token, key_auth)` (an accepted
`begin` whose `done`/`failed` must come next among the hook events). -/
def bpState : Option (String × String × String × String × String) → List Ev → Bool
  | none, [] => true
  | some _, [] => false
  | none, Ev.hook hk m ty iv tok ka r :: rest =>
    if m = "begin" then
      (if r = 0 then bpState (some (hk, ty, iv, tok, ka)) rest
       else bpState none rest)
    else false
  | none, _ :: rest => bpState none rest
  | some (hk, ty, iv, tok, ka), e :: rest =>
    pairMatches hk ty iv tok ka e && bpState none rest

def beginPaired (t : List Ev) : Bool := bpState none t

theorem bpState_none_hook (hk m ty iv tok ka : String) (r : Int) (rest : List Ev) :
    bpState none (Ev.hook hk m ty iv tok ka r :: rest) =
      if m = "begin" then
        (if r = 0 then bpState (some (hk, ty, iv, tok, ka)) rest
         else bpState none rest)
      else false := rfl

theorem bpState_some_cons (hk ty iv tok ka : String) (e : Ev) (rest : List Ev) :
    bpState (some (hk, ty, iv, tok, ka)) (e :: rest) =
      (pairMatches hk ty iv tok ka e && bpState none rest) := rfl

theorem bpState_append (B : List Ev) :
    ∀ (A : List Ev) (s : Option (String × String × String × String × String)),
      bpState s A = true → bpState s (A ++ B) = bpState none B := by
  intro A
  induction A with
  | nil =>
    intro s h
    cases s with
    | none => rfl
    | some a => exact absurd h (by simp [bpState])
  | cons e rest ih =>
    intro s h
    cases s with
    | none =>
      cases e with
      | hook hk m ty iv tok ka r =>
        rw [bpState_none_hook] at h
        rw [List.cons_append, bpState_none_hook]
        by_cases hm : m = "begin"
        · rw [if_pos hm] at h ⊢
          by_cases hr : r = 0
          · rw [if_pos hr] at h ⊢
            exact ih _ h
          · rw [if_neg hr] at h ⊢
            exact ih _ h
        · rw [if_neg hm] at h
          exact absurd h (by simp)
      | get u =>
        rw [show bpState none (Ev.get u :: rest) = bpState none rest from rfl] at h
        rw [List.cons_append,
          show bpState none (Ev.get u :: (rest ++ B)) = bpState none (rest ++ B)
            from rfl]
        exact ih _ h
      | post u k =>
        rw [show bpState none (Ev.post u k :: rest) = bpState none rest from rfl] at h
        rw [List.cons_append,
          show bpState none (Ev.post u k :: (rest ++ B)) = bpState none (rest ++ B)
            from rfl]
        exact ih _ h
      | msgEv m =>
        rw [show bpState none (Ev.msgEv m :: rest) = bpState none rest from rfl] at h
        rw [List.cons_append,
          show bpState none (Ev.msgEv m :: (rest ++ B)) = bpState none (rest ++ B)
            from rfl]
        exact ih _ h
    | some a =>
      obtain ⟨hk, ty, iv, tok, ka⟩ := a
      rw [bpState_some_cons] at h
      rw [Bool.and_eq_true] at h
      rw [List.cons_append, bpState_some_cons, h.1, Bool.true_and]
      exact ih _ h.2

theorem beginPaired_append (A B : List Ev) (h : beginPaired A = true) :
    beginPaired (A ++ B) = beginPaired B :=
  bpState_append B A none h

/-- The key-authorization the driver computes (uacme.c:739-746): for
`dns-01` the base64url-encoded SHA-256 of `token.thumbprint`, for every
other challenge type `token.thumbprint` verbatim. -/
def kaFormula (P : Params) (ty tok : String) : String :=
  let tp := P.thumb.getD ""
  if ty = "dns-01" then P.sha256_base64url (tok ++ "." ++ tp)
  else tok ++ "." ++ tp

/-- Every hook-invocation event carries the key-authorization of the
claim's formula (non-hook events are unconstrained). -/
def kaOkEv (P : Params) : Ev → Bool
  | Ev.hook _ _ ty _ tok ka _ => ka == kaFormula P ty tok
  | _ => true

/-- State transition bookkeeping shared by the driver lemmas: `kid` and
`dir` are untouched and the trace is extended by `Δ`. -/
def KTrans (st st' : St) (Δ : List Ev) : Prop :=
  st'.kid = st.kid ∧ st'.dir = st.dir ∧ st'.trace = st.trace ++ Δ

theorem KTrans.nilTrans (st : St) : KTrans st st [] := ⟨rfl, rfl, by simp⟩

theorem KTrans.comp {st st' st'' : St} {Δ1 Δ2 : List Ev}
    (h1 : KTrans st st' Δ1) (h2 : KTrans st' st'' Δ2) :
    KTrans st st'' (Δ1 ++ Δ2) := by
  refine ⟨h2.1.trans h1.1, h2.2.1.trans h1.2.1, ?_⟩
  rw [h2.2.2, h1.2.2, List.append_assoc]

theorem hookFilter_append (a b : List Ev) :
    hookFilter (a ++ b) = hookFilter a ++ hookFilter b :=
  List.filter_append a b

theorem hookFilter_posts {Δ : List Ev}
    (h : ∀ e ∈ Δ, ∃ u k, e = Ev.post u k) : hookFilter Δ = [] := by
  rw [hookFilter, List.filter_eq_nil]
  intro e he
  obtain ⟨u, k, rfl⟩ := h e he
  simp [isHookEv]

theorem kaOk_posts {P : Params} {Δ : List Ev}
    (h : ∀ e ∈ Δ, ∃ u k, e = Ev.post u k) : ∀ e ∈ Δ, kaOkEv P e = true := by
  intro e he
  obtain ⟨u, k, rfl⟩ := h e he
  simp [kaOkEv]

/-- `acme_post` in transition form. -/
theorem acme_post_delta (st : St) (url : Option String) (p : String) :
    ∃ Δ, KTrans st (acme_post st url p).2 Δ ∧
      ∀ e ∈ Δ, ∃ u, url = some u ∧ e = Ev.post u (postKind st.kid) := by
  obtain ⟨hkid, hdir, _, _, Δ, htr, hchar⟩ := acme_post_frame st url p
  exact ⟨Δ, ⟨hkid, hdir, htr⟩, hchar⟩

/-- The poll loop makes only signed POSTs to the challenge URL, in the
protected-header form fixed by the entry `kid`. -/
theorem pollChallenge_delta (u : String) : ∀ (fuel : Nat) (st : St),
    ∃ Δ, KTrans st (pollChallenge u fuel st).2 Δ ∧
      ∀ e ∈ Δ, ∃ v, e = Ev.post v (postKind st.kid) := by
  intro fuel
  induction fuel with
  | zero =>
    intro st
    exact ⟨[], KTrans.nilTrans st, by simp⟩
  | succ fuel ih =>
    intro st
    obtain ⟨Δ1, ht1, hc1⟩ := acme_post_delta st (some u) ""
    unfold pollChallenge
    revert ht1 hc1
    generalize hp : acme_post st (some u) "" = gp
    obtain ⟨code, st1⟩ := gp
    intro ht1 hc1
    simp only []
    by_cases hcode : code ≠ 200
    · rw [if_pos hcode]
      exact ⟨Δ1, ht1, fun e he => by
        obtain ⟨v, _, rfl⟩ := hc1 e he; exact ⟨v, rfl⟩⟩
    · rw [if_neg hcode]
      by_cases hv : json_find_string st1.json "status" == some "valid"
      · rw [if_pos hv]
        exact ⟨Δ1, ht1, fun e he => by
          obtain ⟨v, _, rfl⟩ := hc1 e he; exact ⟨v, rfl⟩⟩
      · rw [if_neg hv]
        by_cases hpp : !(json_find_string st1.json "status" == some "processing" ||
            json_find_string st1.json "status" == some "pending")
        · rw [if_pos hpp]
          exact ⟨Δ1, ht1, fun e he => by
            obtain ⟨v, _, rfl⟩ := hc1 e he; exact ⟨v, rfl⟩⟩
        · rw [if_neg hpp]
          obtain ⟨Δ2, ht2, hc2⟩ := ih st1
          refine ⟨Δ1 ++ Δ2, ht1.comp ht2, ?_⟩
          intro e he
          rcases List.mem_append.mp he with h | h
          · obtain ⟨v, _, rfl⟩ := hc1 e h; exact ⟨v, rfl⟩
          · obtain ⟨v, rfl⟩ := hc2 e h
            rw [ht1.1]
            exact ⟨v, rfl⟩

/-- The accepted-challenge attempt: besides signed POSTs (trigger and
polls), its only hook event is exactly one `done`-or-`failed` invocation
with the same `type, ident, token, key_auth` arguments — and only when a
hook is configured. -/
theorem chal_attempt_delta (P : Params) (u ty iv tok ka : String) (st : St) :
    ∃ Δ, KTrans st (chal_attempt P u ty iv tok ka st).2 Δ ∧
      (∀ e ∈ Δ, (∃ v, e = Ev.post v (postKind st.kid)) ∨
        (∃ prog m r, hookConfigured P = some prog ∧ (m = "done" ∨ m = "failed") ∧
          e = Ev.hook prog m ty iv tok ka r)) ∧
      (match hookConfigured P with
       | some prog => ∃ m r, (m = "done" ∨ m = "failed") ∧
           hookFilter Δ = [Ev.hook prog m ty iv tok ka r]
       | none => hookFilter Δ = []) := by
  obtain ⟨Δ1, ht1, hc1⟩ := acme_post_delta st (some u) "\x7b\x7d"
  unfold chal_attempt
  revert ht1 hc1
  generalize hp : acme_post st (some u) "\x7b\x7d" = gp
  obtain ⟨code, st1⟩ := gp
  intro ht1 hc1
  simp only []
  have hΔ1 : ∀ e ∈ Δ1, ∃ v, e = Ev.post v (postKind st.kid) := by
    intro e he
    obtain ⟨v, _, rfl⟩ := hc1 e he
    exact ⟨v, rfl⟩
  -- the two cases for (done, st2)
  by_cases hcode : code ≠ 200
  · rw [if_pos hcode]
    simp only []
    cases hcfg : hookConfigured P with
    | some prog =>
      simp only []
      refine ⟨Δ1 ++ [Ev.hook prog "failed" ty iv tok ka
          (P.hookFn "failed" ty iv tok ka)], ?_, ?_, ?_⟩
      · refine ht1.comp ⟨rfl, rfl, rfl⟩
      · intro e he
        rcases List.mem_append.mp he with h | h
        · exact Or.inl (hΔ1 e h)
        · right
          simp at h
          exact ⟨prog, "failed", _, rfl, Or.inr rfl, h⟩
      · refine ⟨"failed", P.hookFn "failed" ty iv tok ka, Or.inr rfl, ?_⟩
        rw [hookFilter_append, hookFilter_posts (fun e he => by
          obtain ⟨v, rfl⟩ := hΔ1 e he; exact ⟨v, _, rfl⟩)]
        rfl
    | none =>
      simp only []
      refine ⟨Δ1, ht1, fun e he => Or.inl (hΔ1 e he), ?_⟩
      exact hookFilter_posts (fun e he => by
        obtain ⟨v, rfl⟩ := hΔ1 e he; exact ⟨v, _, rfl⟩)
  · rw [if_neg hcode]
    obtain ⟨Δ2, ht2, hc2⟩ := pollChallenge_delta u (st1.net.length + 1) st1
    have hΔ2 : ∀ e ∈ Δ2, ∃ v, e = Ev.post v (postKind st.kid) := by
      intro e he
      obtain ⟨v, rfl⟩ := hc2 e he
      rw [ht1.1]
      exact ⟨v, rfl⟩
    revert ht2 hc2 hΔ2
    generalize hpl : pollChallenge u (st1.net.length + 1) st1 = gpl
    obtain ⟨done, st2⟩ := gpl
    intro ht2 hc2 hΔ2
    simp only []
    cases hcfg : hookConfigured P with
    | some prog =>
      simp only []
      refine ⟨(Δ1 ++ Δ2) ++ [Ev.hook prog (if done then "done" else "failed")
          ty iv tok ka (P.hookFn (if done then "done" else "failed") ty iv tok ka)],
        ?_, ?_, ?_⟩
      · exact (ht1.comp ht2).comp ⟨rfl, rfl, rfl⟩
      · intro e he
        rcases List.mem_append.mp he with h | h
        · rcases List.mem_append.mp h with h' | h'
          · exact Or.inl (hΔ1 e h')
          · exact Or.inl (hΔ2 e h')
        · right
          simp at h
          refine ⟨prog, if done then "done" else "failed", _, rfl, ?_, h⟩
          cases done <;> simp
      · refine ⟨if done then "done" else "failed",
          P.hookFn (if done then "done" else "failed") ty iv tok ka, ?_, ?_⟩
        · cases done <;> simp
        · rw [hookFilter_append, hookFilter_append,
            hookFilter_posts (fun e he => by
              obtain ⟨v, rfl⟩ := hΔ1 e he; exact ⟨v, _, rfl⟩),
            hookFilter_posts (fun e he => by
              obtain ⟨v, rfl⟩ := hΔ2 e he; exact ⟨v, _, rfl⟩)]
          rfl
    | none =>
      simp only []
      refine ⟨Δ1 ++ Δ2, ht1.comp ht2, ?_, ?_⟩
      · intro e he
        rcases List.mem_append.mp he with h | h
        · exact Or.inl (hΔ1 e h)
        · exact Or.inl (hΔ2 e h)
      · rw [hookFilter_append,
          hookFilter_posts (fun e he => by
            obtain ⟨v, rfl⟩ := hΔ1 e he; exact ⟨v, _, rfl⟩),
          hookFilter_posts (fun e he => by
            obtain ⟨v, rfl⟩ := hΔ2 e he; exact ⟨v, _, rfl⟩)]
        rfl

/-- The challenge loop: its hook events are fully paired (`beginPaired`),
its POSTs all use the entry protected-header form, and every hook event
carries the key-authorization formula for its own challenge type and
token. -/
theorem chalLoop_delta (P : Params) (tp iv : String) :
    ∀ (chlgs : List Json) (st : St),
    ∃ Δ, KTrans st (chalLoop P tp iv chlgs st).2 Δ ∧
      beginPaired (hookFilter Δ) = true ∧
      (∀ e ∈ Δ, ∀ v k, e = Ev.post v k → k = postKind st.kid) ∧
      (∀ e ∈ Δ, ∀ hk m ty' iv' tok' ka' r, e = Ev.hook hk m ty' iv' tok' ka' r →
        ka' = (if ty' = "dns-01" then P.sha256_base64url (tok' ++ "." ++ tp)
               else tok' ++ "." ++ tp)) := by
  intro chlgs
  induction chlgs with
  | nil =>
    intro st
    exact ⟨[], KTrans.nilTrans st, by simp [hookFilter, beginPaired, bpState],
      by simp, by simp⟩
  | cons ch rest ih =>
    intro st
    simp only [chalLoop]
    by_cases hpend : json_eq_string (some ch) "status" "pending" = true
    swap
    · rw [if_neg hpend]
      exact ih st
    rw [if_pos hpend]
    cases hu : json_find_string (some ch) "url" with
    | none =>
      cases hty : json_find_string (some ch) "type" <;>
        cases htok : json_find_string (some ch) "token" <;>
        exact ⟨[], KTrans.nilTrans st, by simp [hookFilter, beginPaired, bpState],
          by simp, by simp⟩
    | some u =>
      cases hty : json_find_string (some ch) "type" with
      | none =>
        cases htok : json_find_string (some ch) "token" <;>
          exact ⟨[], KTrans.nilTrans st, by simp [hookFilter, beginPaired, bpState],
            by simp, by simp⟩
      | some ty =>
        cases htok : json_find_string (some ch) "token" with
        | none =>
          exact ⟨[], KTrans.nilTrans st, by simp [hookFilter, beginPaired, bpState],
            by simp, by simp⟩
        | some tok =>
          simp only []
          cases hcfg : hookConfigured P with
          | some prog =>
            simp only []
            set ka := if ty = "dns-01" then P.sha256_base64url (tok ++ "." ++ tp)
              else tok ++ "." ++ tp with hka
            set r := P.hookFn "begin" ty iv tok ka with hrdef
            set begEv := Ev.hook prog "begin" ty iv tok ka r with hbeg
            set st1 : St := { st with trace := st.trace ++ [begEv] } with hst1
            have htbeg : KTrans st st1 [begEv] := ⟨rfl, rfl, rfl⟩
            by_cases hneg : r < 0
            · rw [if_pos hneg]
              refine ⟨[begEv], htbeg, ?_, ?_, ?_⟩
              · have hr0 : ¬r = 0 := by omega
                have hone : hookFilter [begEv] = [begEv] := by
                  simp [hookFilter, isHookEv, hbeg]
                rw [hone, hbeg]
                show bpState none [Ev.hook prog "begin" ty iv tok ka r] = true
                rw [bpState_none_hook, if_pos rfl, if_neg hr0]
                rfl
              · intro e he; simp [hbeg] at he; simp [he]
              · intro e he hk m ty' iv' tok' ka' r' heq
                simp [hbeg] at he
                rw [he] at heq
                cases heq
                exact hka
            · rw [if_neg hneg]
              by_cases hposc : r > 0
              · rw [if_pos hposc]
                obtain ⟨Δ2, ht2, hp2, hpost2, hka2⟩ := ih st1
                refine ⟨[begEv] ++ Δ2, htbeg.comp ht2, ?_, ?_, ?_⟩
                · rw [hookFilter_append]
                  have hr0 : ¬r = 0 := by omega
                  have hone : hookFilter [begEv] = [begEv] := by
                    simp [hookFilter, isHookEv, hbeg]
                  rw [hone, hbeg]
                  show bpState none
                    (Ev.hook prog "begin" ty iv tok ka r :: hookFilter Δ2) = true
                  rw [bpState_none_hook, if_pos rfl, if_neg hr0]
                  exact hp2
                · intro e he
                  rcases List.mem_append.mp he with h | h
                  · simp [hbeg] at h; simp [h]
                  · intro v k heq
                    have := hpost2 e h v k heq
                    rw [this, htbeg.1]
                · intro e he hk m ty' iv' tok' ka' r' heq
                  rcases List.mem_append.mp he with h | h
                  · simp [hbeg] at h
                    rw [h] at heq
                    cases heq
                    exact hka
                  · exact hka2 e h hk m ty' iv' tok' ka' r' heq
              · have hr0 : r = 0 := by omega
                rw [if_neg hposc]
                obtain ⟨Δa, hta, hca, hfa⟩ := chal_attempt_delta P u ty iv tok ka st1
                rw [hcfg] at hfa
                obtain ⟨m, r', hm, hfilt⟩ := hfa
                refine ⟨[begEv] ++ Δa, htbeg.comp hta, ?_, ?_, ?_⟩
                · rw [hookFilter_append]
                  have hone : hookFilter [begEv] = [begEv] := by
                    simp [hookFilter, isHookEv, hbeg]
                  rw [hone, hfilt, hbeg, hr0]
                  show bpState none
                    (Ev.hook prog "begin" ty iv tok ka 0 ::
                      [Ev.hook prog m ty iv tok ka r']) = true
                  rw [bpState_none_hook, if_pos rfl, if_pos rfl, bpState_some_cons]
                  have hpm : pairMatches prog ty iv tok ka
                      (Ev.hook prog m ty iv tok ka r') = true := by
                    rcases hm with hm | hm <;> simp [pairMatches, hm]
                  rw [hpm]
                  rfl
                · intro e he
                  rcases List.mem_append.mp he with h | h
                  · simp [hbeg] at h; simp [h]
                  · intro v k heq
                    rcases hca e h with ⟨v', hv'⟩ | ⟨p', m', r'', _, _, hv'⟩
                    · rw [hv'] at heq
                      cases heq
                      rw [htbeg.1]
                    · rw [hv'] at heq
                      cases heq
                · intro e he hk m' ty' iv' tok' ka' r'' heq
                  rcases List.mem_append.mp he with h | h
                  · simp [hbeg] at h
                    rw [h] at heq
                    cases heq
                    exact hka
                  · rcases hca e h with ⟨v', hv'⟩ | ⟨p', m'', r''', _, _, hv'⟩
                    · rw [hv'] at heq
                      cases heq
                    · rw [hv'] at heq
                      cases heq
                      exact hka
          | none =>
            simp only []
            by_cases hpr : P.promptFn ty iv tok
              (if ty = "dns-01" then P.sha256_base64url (tok ++ "." ++ tp)
               else tok ++ "." ++ tp) = true
            · rw [if_pos hpr]
              obtain ⟨Δa, hta, hca, hfa⟩ := chal_attempt_delta P u ty iv tok
                (if ty = "dns-01" then P.sha256_base64url (tok ++ "." ++ tp)
                 else tok ++ "." ++ tp) st
              rw [hcfg] at hfa
              refine ⟨Δa, hta, ?_, ?_, ?_⟩
              · rw [hfa]
                rfl
              · intro e he v k heq
                rcases hca e he with ⟨v', hv'⟩ | ⟨p', m', r'', hc', _, hv'⟩
                · rw [hv'] at heq
                  cases heq
                  rfl
                · rw [hcfg] at hc'
                  cases hc'
              · intro e he hk m' ty' iv' tok' ka' r'' heq
                rcases hca e he with ⟨v', hv'⟩ | ⟨p', m'', r''', hc', _, hv'⟩
                · rw [hv'] at heq
                  cases heq
                · rw [hcfg] at hc'
                  cases hc'
            · rw [if_neg hpr]
              exact ih st

/-- The bundle of driver-trace facts: hook events fully paired, all POSTs
in the entry protected-header form, all hook events carrying the
key-authorization formula. -/
def DrvΔ (P : Params) (tp : String) (kid0 : Option String) (Δ : List Ev) : Prop :=
  beginPaired (hookFilter Δ) = true ∧
  (∀ e ∈ Δ, ∀ v k, e = Ev.post v k → k = postKind kid0) ∧
  (∀ e ∈ Δ, ∀ hk m ty' iv' tok' ka' r, e = Ev.hook hk m ty' iv' tok' ka' r →
    ka' = (if ty' = "dns-01" then P.sha256_base64url (tok' ++ "." ++ tp)
           else tok' ++ "." ++ tp))

theorem DrvΔ.nilΔ {P : Params} {tp : String} {kid0 : Option String} :
    DrvΔ P tp kid0 [] :=
  ⟨rfl, by simp, by simp⟩

theorem DrvΔ.appendΔ {P : Params} {tp : String} {kid0 : Option String}
    {A B : List Ev} (ha : DrvΔ P tp kid0 A) (hb : DrvΔ P tp kid0 B) :
    DrvΔ P tp kid0 (A ++ B) := by
  refine ⟨?_, ?_, ?_⟩
  · rw [hookFilter_append, beginPaired_append _ _ ha.1]
    exact hb.1
  · intro e he
    rcases List.mem_append.mp he with h | h
    · exact ha.2.1 e h
    · exact hb.2.1 e h
  · intro e he
    rcases List.mem_append.mp he with h | h
    · exact ha.2.2 e h
    · exact hb.2.2 e h

theorem DrvΔ.ofPosts {P : Params} {tp : String} {kid0 : Option String}
    {Δ : List Ev} (h : ∀ e ∈ Δ, ∃ v, e = Ev.post v (postKind kid0)) :
    DrvΔ P tp kid0 Δ := by
  refine ⟨?_, ?_, ?_⟩
  · rw [hookFilter_posts (fun e he => by
      obtain ⟨v, rfl⟩ := h e he; exact ⟨v, _, rfl⟩)]
    rfl
  · intro e he v k heq
    obtain ⟨v', rfl⟩ := h e he
    cases heq
    rfl
  · intro e he hk m ty' iv' tok' ka' r heq
    obtain ⟨v', rfl⟩ := h e he
    cases heq

theorem DrvΔ.castKid {P : Params} {tp : String} {k1 k2 : Option String}
    {Δ : List Ev} (hk : k1 = k2) (h : DrvΔ P tp k1 Δ) : DrvΔ P tp k2 Δ :=
  hk ▸ h

/-- The per-authorization loop inherits the trace discipline of the
challenge loop. -/
theorem authLoop_delta (P : Params) (tp : String) :
    ∀ (auths : List Json) (st : St),
    ∃ Δ, KTrans st (authLoop P tp auths st).2 Δ ∧ DrvΔ P tp st.kid Δ := by
  intro auths
  induction auths with
  | nil => intro st; exact ⟨[], KTrans.nilTrans st, DrvΔ.nilΔ⟩
  | cons a rest ih =>
    intro st
    simp only [authLoop]
    cases a with
    | str u =>
      simp only []
      obtain ⟨Δ1, ht1, hc1⟩ := acme_post_delta st (some u) ""
      have hd1 : DrvΔ P tp st.kid Δ1 := DrvΔ.ofPosts (fun e he => by
        obtain ⟨v, _, rfl⟩ := hc1 e he; exact ⟨v, rfl⟩)
      revert ht1 hd1
      generalize hp : acme_post st (some u) "" = gp
      obtain ⟨code, st1⟩ := gp
      intro ht1 hd1
      simp only []
      by_cases hcode : code ≠ 200
      · rw [if_pos hcode]; exact ⟨Δ1, ht1, hd1⟩
      · rw [if_neg hcode]
        by_cases hvs : json_find_string st1.json "status" == some "valid"
        · rw [if_pos hvs]
          obtain ⟨Δ2, ht2, hd2⟩ := ih st1
          exact ⟨Δ1 ++ Δ2, ht1.comp ht2, hd1.appendΔ (hd2.castKid ht1.1)⟩
        · rw [if_neg hvs]
          by_cases hps : !(json_find_string st1.json "status" == some "pending")
          · rw [if_pos hps]; exact ⟨Δ1, ht1, hd1⟩
          · rw [if_neg hps]
            by_cases hident :
                !json_eq_string (json_find st1.json "identifier") "type" "dns"
            · rw [if_pos hident]; exact ⟨Δ1, ht1, hd1⟩
            · rw [if_neg hident]
              cases hivv :
                  json_find_string (json_find st1.json "identifier") "value" with
              | none => exact ⟨Δ1, ht1, hd1⟩
              | some iv =>
                simp only []
                by_cases hiv0 : iv = ""
                · rw [if_pos hiv0]; exact ⟨Δ1, ht1, hd1⟩
                · rw [if_neg hiv0]
                  cases hch : json_find st1.json "challenges" with
                  | none => exact ⟨Δ1, ht1, hd1⟩
                  | some cj =>
                    cases cj with
                    | str s => exact ⟨Δ1, ht1, hd1⟩
                    | obj o => exact ⟨Δ1, ht1, hd1⟩
                    | other => exact ⟨Δ1, ht1, hd1⟩
                    | arr chlgs =>
                      simp only []
                      obtain ⟨Δ2, ht2, hp2, hpost2, hka2⟩ :=
                        chalLoop_delta P tp iv chlgs { st1 with json := none }
                      have ht12 : KTrans st1 { st1 with json := none } [] :=
                        ⟨rfl, rfl, by simp⟩
                      have hd2 : DrvΔ P tp st.kid Δ2 := by
                        refine DrvΔ.castKid ?_ ⟨hp2, hpost2, hka2⟩
                        show ({ st1 with json := none } : St).kid = st.kid
                        rw [show ({ st1 with json := none } : St).kid = st1.kid
                          from rfl, ht1.1]
                      revert ht2
                      generalize hcl :
                        chalLoop P tp iv chlgs { st1 with json := none } = gcl
                      obtain ⟨done, st3⟩ := gcl
                      intro ht2
                      simp only []
                      by_cases hdone : done = true
                      · rw [if_pos hdone]
                        obtain ⟨Δ3, ht3, hd3⟩ := ih st3
                        refine ⟨Δ1 ++ (Δ2 ++ Δ3),
                          ht1.comp ((ht12.comp ht2).comp ht3), ?_⟩
                        refine hd1.appendΔ (hd2.appendΔ (hd3.castKid ?_))
                        rw [ht2.1, show ({ st1 with json := none } : St).kid
                          = st1.kid from rfl, ht1.1]
                      · rw [if_neg hdone]
                        exact ⟨Δ1 ++ Δ2, ht1.comp (ht12.comp ht2),
                          hd1.appendΔ hd2⟩
    | arr l => exact ⟨[], KTrans.nilTrans st, DrvΔ.nilΔ⟩
    | obj o => exact ⟨[], KTrans.nilTrans st, DrvΔ.nilΔ⟩
    | other => exact ⟨[], KTrans.nilTrans st, DrvΔ.nilΔ⟩

/-- `authorize` in transition form: hook events are fully paired, posts use
the entry protected-header form, and every hook event carries the claimed
key-authorization (`kaOkEv`). -/
theorem authorize_delta (P : Params) (st : St) :
    ∃ Δ, KTrans st (authorize P st).2 Δ ∧
      beginPaired (hookFilter Δ) = true ∧
      (∀ e ∈ Δ, ∀ v k, e = Ev.post v k → k = postKind st.kid) ∧
      (∀ e ∈ Δ, kaOkEv P e = true) := by
  unfold authorize
  cases hau : json_find st.order "authorizations" with
  | none => exact ⟨[], KTrans.nilTrans st, rfl, by simp, by simp⟩
  | some aj =>
    cases aj with
    | str s => exact ⟨[], KTrans.nilTrans st, rfl, by simp, by simp⟩
    | obj o => exact ⟨[], KTrans.nilTrans st, rfl, by simp, by simp⟩
    | other => exact ⟨[], KTrans.nilTrans st, rfl, by simp, by simp⟩
    | arr auths =>
      simp only []
      cases hth : P.thumb with
      | none => exact ⟨[], KTrans.nilTrans st, rfl, by simp, by simp⟩
      | some tp =>
        simp only []
        obtain ⟨Δ, ht, hd⟩ := authLoop_delta P tp auths st
        refine ⟨Δ, ht, hd.1, hd.2.1, ?_⟩
        intro e he
        cases e with
        | hook hk m ty' iv' tok' ka' r =>
          have := hd.2.2 _ he hk m ty' iv' tok' ka' r rfl
          simp only [kaOkEv, kaFormula, hth, Option.getD_some]
          rw [this]
          simp
        | get u => simp [kaOkEv]
        | post u k => simp [kaOkEv]
        | msgEv m => simp [kaOkEv]

/-! ## Claims C2, C3, C4 -/

/-- C2 (functional_correctness, confirmed): every key-authorization the
authorization driver hands to the hook (for any challenge it attempts or
declines — in particular for every pending challenge it accepts) is
computed as `base64url(SHA-256(token + "." + T))` when the challenge type
is `dns-01`, and `token + "." + T` for every other type, where `T` is the
account-key thumbprint (uacme.c:739-746). -/
theorem C2_key_authorization (P : Params) (st : St)
    (h : ∀ e ∈ st.trace, kaOkEv P e = true) :
    ∀ e ∈ (authorize P st).2.trace, kaOkEv P e = true := by
  obtain ⟨Δ, ht, _, _, hka⟩ := authorize_delta P st
  rw [ht.2.2]
  intro e he
  rcases List.mem_append.mp he with h' | h'
  · exact h e h'
  · exact hka e h'

/-- C3 (invariants, confirmed): in the trace of the authorization driver,
every hook `begin` invocation that returned 0 is followed by exactly one
`done` (challenge success) or `failed` (trigger failure, poll failure or
bad status) invocation with identical program, type, identifier, token and
key-authorization arguments, before any further hook activity; no
`done`/`failed` appears unpaired. -/
theorem C3_hook_pairing (P : Params) (st : St) (h : st.trace = []) :
    beginPaired (hookFilter ((authorize P st).2.trace)) = true := by
  obtain ⟨Δ, ht, hp, _, _⟩ := authorize_delta P st
  rw [ht.2.2, h, List.nil_append]
  exact hp

/-- A pending challenge document as served by the ACME server. -/
def mkChallenge (u ty tok : String) : Json :=
  Json.obj [("status", Json.str "pending"), ("url", Json.str u),
    ("type", Json.str ty), ("token", Json.str tok)]

/-- C4 (error_handling, confirmed): for a pending challenge with a hook
configured, the driver invokes the hook with argument vector
`[hook, "begin", type, identifier_value, token, key_auth]` (the recorded
event) and dispatches on the exit code: 0 accepts and proceeds to the
challenge attempt, a positive code declines and tries the next challenge of
the authorization, and a negative `hook_run` return (the child could not be
spawned) aborts: the challenge loop returns failure — the `goto out` that
fails `authorize`, `cert_issue` and with them the whole action. -/
theorem C4_hook_begin_semantics (P : Params)
    (tp iv u ty tok prog ka : String) (r : Int) (rest : List Json) (st st1 : St)
    (hcfg : hookConfigured P = some prog)
    (hka : ka = if ty = "dns-01" then P.sha256_base64url (tok ++ "." ++ tp)
                else tok ++ "." ++ tp)
    (hr : r = P.hookFn "begin" ty iv tok ka)
    (hst1 : st1 = { st with trace :=
      st.trace ++ [Ev.hook prog "begin" ty iv tok ka r] }) :
    (r < 0 → chalLoop P tp iv (mkChallenge u ty tok :: rest) st = (false, st1)) ∧
    (r > 0 → chalLoop P tp iv (mkChallenge u ty tok :: rest) st =
      chalLoop P tp iv rest st1) ∧
    (r = 0 → chalLoop P tp iv (mkChallenge u ty tok :: rest) st =
      chal_attempt P u ty iv tok ka st1) := by
  subst hka
  subst hr
  subst hst1
  simp only [chalLoop]
  rw [show json_eq_string (some (mkChallenge u ty tok)) "status" "pending" = true
    from rfl]
  rw [if_pos rfl]
  rw [show json_find_string (some (mkChallenge u ty tok)) "url" = some u from rfl,
    show json_find_string (some (mkChallenge u ty tok)) "type" = some ty from rfl,
    show json_find_string (some (mkChallenge u ty tok)) "token" = some tok
      from rfl]
  simp only []
  rw [hcfg]
  simp only []
  refine ⟨?_, ?_, ?_⟩
  · intro hneg
    rw [if_pos hneg]
  · intro hpos
    rw [if_neg (by omega), if_pos hpos]
  · intro hzero
    rw [if_neg (by omega), if_neg (by omega)]

/-- A pending authorization document for `example.com` with one pending
`http-01` challenge. -/
def authzDoc : Json :=
  Json.obj [("status", Json.str "pending"),
    ("identifier", Json.obj [("type", Json.str "dns"),
      ("value", Json.str "example.com")]),
    ("challenges", Json.arr [mkChallenge "https://a/chal/1" "http-01" "T1"])]

/-- Response constructor shorthand for concrete scenarios. -/
def respOf (code : Nat) (hs : List String) (j : Option Json) : Resp :=
  { code := code, headers := hs, json := j, body := "" }

/-- Network script for one authorization: fetch, trigger, poll-to-valid. -/
def authNet : List (Option Resp) := [
  some (respOf 200 ["Replay-Nonce: N4", "Content-Type: application/json"]
    (some authzDoc)),
  some (respOf 200 ["Replay-Nonce: N5", "Content-Type: application/json"]
    (some (Json.obj [("status", Json.str "processing")]))),
  some (respOf 200 ["Replay-Nonce: N6", "Content-Type: application/json"]
    (some (Json.obj [("status", Json.str "valid")])))]

/-- Parameters with a configured hook accepting every challenge. -/
def authP : Params :=
  { skipParams with
      hookProg := some "/h"
      thumb := some "TH"
      sha256_base64url := fun s => "H(" ++ s ++ ")" }

/-- A session state holding an order with one authorization URL. -/
def stAuthz : St :=
  { initSt authNet with
      nonce := some "N3"
      kid := some "https://a/acct/1"
      order := some (Json.obj [("authorizations",
        Json.arr [Json.str "https://a/authz/1"])]) }

/-- Witness for `C2_key_authorization`: the driver runs the hook for the
`http-01` challenge with key-authorization `T1.TH` (= token.thumbprint). -/
theorem C2_witness :
    (∀ e ∈ stAuthz.trace, kaOkEv authP e = true) ∧
    Ev.hook "/h" "begin" "http-01" "example.com" "T1" "T1.TH" 0 ∈
      (authorize authP stAuthz).2.trace ∧
    (∀ e ∈ (authorize authP stAuthz).2.trace, kaOkEv authP e = true) :=
  ⟨by decide, by decide, C2_key_authorization authP stAuthz (by decide)⟩

/-- Witness for `C3_hook_pairing` on the same concrete scenario. -/
theorem C3_witness :
    stAuthz.trace = [] ∧
    beginPaired (hookFilter ((authorize authP stAuthz).2.trace)) = true :=
  ⟨rfl, C3_hook_pairing authP stAuthz rfl⟩

/-- Parameters whose hook cannot be spawned (`hook_run` returns -1). -/
def spawnFailP : Params := { authP with hookFn := fun _ _ _ _ _ => -1 }

/-- Witness for `C4_hook_begin_semantics`: a spawn failure (-1) makes the
challenge loop fail immediately after the `begin` event. -/
theorem C4_witness :
    hookConfigured spawnFailP = some "/h" ∧
    chalLoop spawnFailP "TH" "example.com"
        [mkChallenge "https://a/chal/1" "http-01" "T1"] (initSt []) =
      (false, { initSt [] with trace := [Ev.hook "/h" "begin" "http-01"
        "example.com" "T1" "T1.TH" (-1)] }) :=
  ⟨by decide,
   (C4_hook_begin_semantics spawnFailP "TH" "example.com" "https://a/chal/1"
      "http-01" "T1" "/h" "T1.TH" (-1) [] (initSt [])
      { initSt [] with trace := [Ev.hook "/h" "begin" "http-01" "example.com"
        "T1" "T1.TH" (-1)] }
      (by decide) (by decide) (by decide) rfl).1 (by decide)⟩

/-! ## Claim C5: `jwk` only on `newAccount` -/

/-- A scripted response carries either no `Location` header or a non-empty
one (the sanity condition under which "the adopted account URL" is a real
URL). -/
def locOkResp : Option Resp → Bool
  | none => true
  | some r =>
    match find_header r.headers "Location" with
    | some l => l != ""
    | none => true

/-- Every response of the script satisfies `locOkResp`. -/
def netLocOk (net : List (Option Resp)) : Bool := net.all locOkResp

theorem netLocOk_drop {net : List (Option Resp)} (k : Nat)
    (h : netLocOk net = true) : netLocOk (net.drop k) = true := by
  rw [netLocOk, List.all_eq_true] at h ⊢
  intro x hx
  exact h x (List.drop_subset k net hx)

/-- `acme_bootstrap` makes no POST at all, does not touch the `kid`, and
consumes a prefix of the script. -/
theorem acme_bootstrap_delta (d : String) (st : St) :
    (acme_bootstrap d st).2.kid = st.kid ∧
    (∃ k, (acme_bootstrap d st).2.net = st.net.drop k) ∧
    (∃ Δ, (acme_bootstrap d st).2.trace = st.trace ++ Δ ∧
      ∀ e ∈ Δ, ∃ u, e = Ev.get u) := by
  unfold acme_bootstrap
  have hfr1 := acme_get_frame st d
  have hnet1 := acme_get_net st (some d)
  revert hfr1 hnet1
  generalize h1 : acme_get st (some d) = g1
  obtain ⟨c1, st1⟩ := g1
  intro hfr1 hnet1
  simp only []
  have base : st1.kid = st.kid ∧ (∃ k, st1.net = st.net.drop k) ∧
      (∃ Δ, st1.trace = st.trace ++ Δ ∧ ∀ e ∈ Δ, ∃ u, e = Ev.get u) := by
    refine ⟨hfr1.2.2.1, hnet1, [Ev.get d], hfr1.1, ?_⟩
    intro e he
    simp at he
    exact ⟨d, he⟩
  by_cases hc1 : c1 ≠ 200
  · rw [if_pos hc1]; exact base
  · rw [if_neg hc1]
    by_cases he : acme_error st1
    · rw [if_pos he]; exact base
    · rw [if_neg he]
      cases hnn : json_find_string st1.json "newNonce" with
      | none =>
        exact base
      | some nn =>
        simp only []
        have hfr2 := acme_get_frame { st1 with dir := st1.json, json := none } nn
        have hnet2 := acme_get_net { st1 with dir := st1.json, json := none }
          (some nn)
        revert hfr2 hnet2
        generalize h2 :
          acme_get { st1 with dir := st1.json, json := none } (some nn) = g2
        obtain ⟨c2, st2⟩ := g2
        intro hfr2 hnet2
        simp only []
        obtain ⟨Δ1, htr1, hg1⟩ := base.2.2
        obtain ⟨k1, hk1⟩ := base.2.1
        obtain ⟨k2, hk2⟩ := hnet2
        have base2 : st2.kid = st.kid ∧ (∃ k, st2.net = st.net.drop k) ∧
            (∃ Δ, st2.trace = st.trace ++ Δ ∧ ∀ e ∈ Δ, ∃ u, e = Ev.get u) := by

          refine ⟨hfr2.2.2.1.trans base.1, ⟨k1 + k2, ?_⟩,
            Δ1 ++ [Ev.get nn], ?_, ?_⟩
          · rw [hk2]
            show st1.net.drop k2 = _
            rw [hk1, List.drop_drop, Nat.add_comm]
          · rw [hfr2.1]
            show st1.trace ++ [Ev.get nn] = _
            rw [htr1, List.append_assoc]
          · intro e he
            rcases List.mem_append.mp he with h | h
            · exact hg1 e h
            · simp at h
              exact ⟨nn, h⟩
        by_cases hc2 : c2 ≠ 204
        · rw [if_pos hc2]; exact base2
        · rw [if_neg hc2]
          by_cases he2 : acme_error st2
          · rw [if_pos he2]; exact base2
          · rw [if_neg he2]; exact base2

/-- `account_retrieve`: its only POST goes to the directory's `newAccount`
URL; on success (and a script whose `Location` headers are non-empty) the
adopted `kid` is some non-empty location. -/
theorem account_retrieve_delta (st : St) :
    (account_retrieve st).2.dir = st.dir ∧
    (∃ k, (account_retrieve st).2.net = st.net.drop k) ∧
    (∃ Δ, (account_retrieve st).2.trace = st.trace ++ Δ ∧
      ∀ e ∈ Δ, ∀ u kk, e = Ev.post u kk →
        json_find_string st.dir "newAccount" = some u ∧ kk = postKind st.kid) ∧
    (netLocOk st.net = true → (account_retrieve st).1 = true →
      ∃ loc, (account_retrieve st).2.kid = some loc ∧ loc ≠ "") := by
  unfold account_retrieve
  cases hna : json_find_string st.dir "newAccount" with
  | none =>
    refine ⟨rfl, ⟨0, rfl⟩, ⟨[], by simp, by simp⟩, ?_⟩
    intro _ h
    simp at h
  | some url =>
    simp only []
    have hfr := acme_post_frame st (some url) "\x7b\"onlyReturnExisting\":true\x7d"
    have hnet := acme_post_net st (some url) "\x7b\"onlyReturnExisting\":true\x7d"
    have hhd := acme_post_headers st (some url) "\x7b\"onlyReturnExisting\":true\x7d"
    revert hfr hnet hhd
    generalize hp :
      acme_post st (some url) "\x7b\"onlyReturnExisting\":true\x7d" = gp
    obtain ⟨code, st1⟩ := gp
    intro hfr hnet hhd
    simp only []
    obtain ⟨hkid, hdir, hord, hacc, Δ1, htr1, hc1⟩ := hfr
    have baseΔ : ∃ Δ, st1.trace = st.trace ++ Δ ∧
        ∀ e ∈ Δ, ∀ u kk, e = Ev.post u kk →
          (some url : Option String) = some u ∧ kk = postKind st.kid := by
      refine ⟨Δ1, htr1, ?_⟩
      intro e he u kk heq
      obtain ⟨u', hu', he'⟩ := hc1 e he
      rw [he'] at heq
      cases heq
      exact ⟨hu', rfl⟩
    by_cases hcode : code = 200
    swap
    · rw [if_neg hcode]
      exact ⟨hdir, hnet, baseΔ, fun _ h => absurd h (by simp)⟩
    rw [if_pos hcode]
    by_cases herr : acme_error st1
    · rw [if_pos herr]
      exact ⟨hdir, hnet, baseΔ, fun _ h => absurd h (by simp)⟩
    rw [if_neg herr]
    by_cases hval : !json_eq_string st1.json "status" "valid"
    · rw [if_pos hval]
      exact ⟨hdir, hnet, baseΔ, fun _ h => absurd h (by simp)⟩
    rw [if_neg hval]
    cases hl : find_header st1.headers "Location" with
    | none =>
      exact ⟨hdir, hnet, baseΔ, fun _ h => absurd h (by simp)⟩
    | some loc =>
      simp only []
      refine ⟨hdir, hnet, baseΔ, ?_⟩
      intro hlocok _
      refine ⟨loc, rfl, ?_⟩
      rcases hhd with hempty | ⟨r, rest, hnr, hhr⟩
      · rw [hempty] at hl
        simp [find_header] at hl
      · rw [hhr] at hl
        have : locOkResp (some r) = true := by
          rw [netLocOk, hnr, List.all_cons, Bool.and_eq_true] at hlocok
          exact hlocok.1
        rw [locOkResp, hl] at this
        simpa using this

/-- `account_new`: all its POSTs go to the directory's `newAccount` URL. -/
theorem account_new_delta (st : St) (yes termsY : Bool) (email : Option String) :
    (account_new st yes email termsY).2.dir = st.dir ∧
    ∃ Δ, (account_new st yes email termsY).2.trace = st.trace ++ Δ ∧
      ∀ e ∈ Δ, ∀ u kk, e = Ev.post u kk →
        json_find_string st.dir "newAccount" = some u ∧ kk = postKind st.kid := by
  unfold account_new
  cases hna : json_find_string st.dir "newAccount" with
  | none => exact ⟨rfl, [], by simp, by simp⟩
  | some url =>
    simp only []
    have hfr := acme_post_frame st (some url) "\x7b\"onlyReturnExisting\":true\x7d"
    revert hfr
    generalize hp :
      acme_post st (some url) "\x7b\"onlyReturnExisting\":true\x7d" = gp
    obtain ⟨code, st1⟩ := gp
    intro hfr
    simp only []
    obtain ⟨hkid, hdir, hord, hacc, Δ1, htr1, hc1⟩ := hfr
    have hΔ1 : ∀ e ∈ Δ1, ∀ u kk, e = Ev.post u kk →
        (some url : Option String) = some u ∧ kk = postKind st.kid := by
      intro e he u kk heq
      obtain ⟨u', hu', he'⟩ := hc1 e he
      rw [he'] at heq
      cases heq
      exact ⟨hu', rfl⟩
    by_cases hcode : code = 200
    · rw [if_pos hcode]
      cases hl : find_header st1.headers "Location" with
      | none => exact ⟨hdir, Δ1, htr1, hΔ1⟩
      | some loc =>
        simp only []
        refine ⟨hdir, Δ1 ++ [Ev.msgEv ("Account already exists at " ++ loc)],
          ?_, ?_⟩
        · show st1.trace ++ _ = _
          rw [htr1, List.append_assoc]
        · intro e he u kk heq
          rcases List.mem_append.mp he with h | h
          · exact hΔ1 e h u kk heq
          · simp at h
            rw [h] at heq
            cases heq
    · rw [if_neg hcode]
      by_cases h400 : (code == 400 && st1.json.isSome &&
          (match st1.ctype with
           | some t => strcaseeq t "application/problem+json"
           | none => false) &&
          json_eq_string st1.json "type"
            "urn:ietf:params:acme:error:accountDoesNotExist") = true
      swap
      · rw [if_neg h400]
        exact ⟨hdir, Δ1, htr1, hΔ1⟩
      rw [if_pos h400]
      by_cases hterms : !(match json_find_string (json_find st.dir "meta")
          "termsOfService" with
        | some _ => yes || termsY
        | none => true)
      · rw [show (json_find st1.dir "meta") = (json_find st.dir "meta") from by
          rw [show st1.dir = st.dir from hdir]]
        rw [if_pos hterms]
        exact ⟨hdir, Δ1, htr1, hΔ1⟩
      · rw [show (json_find st1.dir "meta") = (json_find st.dir "meta") from by
          rw [show st1.dir = st.dir from hdir]]
        rw [if_neg hterms]
        have hfr2 := acme_post_frame st1 (some url)
          (match email with
           | some e =>
             if e ≠ "" then
               "\x7b\"termsOfServiceAgreed\":true,\"contact\": [\"mailto:" ++ e
                 ++ "\"]\x7d"
             else "\x7b\"termsOfServiceAgreed\":true\x7d"
           | none => "\x7b\"termsOfServiceAgreed\":true\x7d")
        revert hfr2
        generalize hp2 : acme_post st1 (some url)
          (match email with
           | some e =>
             if e ≠ "" then
               "\x7b\"termsOfServiceAgreed\":true,\"contact\": [\"mailto:" ++ e
                 ++ "\"]\x7d"
             else "\x7b\"termsOfServiceAgreed\":true\x7d"
           | none => "\x7b\"termsOfServiceAgreed\":true\x7d") = gp2
        obtain ⟨code2, st2⟩ := gp2
        intro hfr2
        simp only []
        obtain ⟨hkid2, hdir2, hord2, hacc2, Δ2, htr2, hc2⟩ := hfr2
        have hcomb : ∃ Δ, st2.trace = st.trace ++ Δ ∧
            ∀ e ∈ Δ, ∀ u kk, e = Ev.post u kk →
              (some url : Option String) = some u ∧ kk = postKind st.kid := by
          refine ⟨Δ1 ++ Δ2, by rw [htr2, htr1, List.append_assoc], ?_⟩
          intro e he u kk heq
          rcases List.mem_append.mp he with h | h
          · exact hΔ1 e h u kk heq
          · obtain ⟨u', hu', he'⟩ := hc2 e h
            rw [he'] at heq
            cases heq
            exact ⟨hu', by rw [hkid]⟩
        obtain ⟨Δc, htrc, hcc⟩ := hcomb
        have hdirc : st2.dir = st.dir := hdir2.trans hdir
        by_cases hc201 : code2 = 201
        · rw [if_pos hc201]
          by_cases herr2 : acme_error st2
          · rw [if_pos herr2]
            exact ⟨hdirc, Δc, htrc, hcc⟩
          rw [if_neg herr2]
          by_cases hval2 : !json_eq_string st2.json "status" "valid"
          · rw [if_pos hval2]
            exact ⟨hdirc, Δc, htrc, hcc⟩
          rw [if_neg hval2]
          cases hl2 : find_header st2.headers "Location" with
          | none => exact ⟨hdirc, Δc, htrc, hcc⟩
          | some loc => exact ⟨hdirc, Δc, htrc, hcc⟩
        · rw [if_neg hc201]
          exact ⟨hdirc, Δc, htrc, hcc⟩

/-- Transition bundle for the post-adoption phase: `kid` and `dir` are
stable and every POST uses the protected-header form of `kid0`. -/
def KP (kid0 : Option String) (st st' : St) : Prop :=
  st'.kid = st.kid ∧ st'.dir = st.dir ∧
  ∃ Δ, st'.trace = st.trace ++ Δ ∧
    ∀ e ∈ Δ, ∀ u kk, e = Ev.post u kk → kk = postKind kid0

theorem KP.kpRefl (kid0 : Option String) (st : St) : KP kid0 st st :=
  ⟨rfl, rfl, [], by simp, by simp⟩

theorem KP.kpComp {kid0 : Option String} {st st' st'' : St}
    (h1 : KP kid0 st st') (h2 : KP kid0 st' st'') : KP kid0 st st'' := by
  obtain ⟨hk1, hd1, Δ1, ht1, hc1⟩ := h1
  obtain ⟨hk2, hd2, Δ2, ht2, hc2⟩ := h2
  refine ⟨hk2.trans hk1, hd2.trans hd1, Δ1 ++ Δ2, ?_, ?_⟩
  · rw [ht2, ht1, List.append_assoc]
  · intro e he u kk heq
    rcases List.mem_append.mp he with h | h
    · exact hc1 e h u kk heq
    · exact hc2 e h u kk heq

theorem KP.ofPost {kid0 : Option String} (st : St) (url : Option String)
    (p : String) (hk : st.kid = kid0) : KP kid0 st (acme_post st url p).2 := by
  obtain ⟨hkid, hdir, _, _, Δ, htr, hc⟩ := acme_post_frame st url p
  refine ⟨hkid, hdir, Δ, htr, ?_⟩
  intro e he u kk heq
  obtain ⟨u', hu', he'⟩ := hc e he
  rw [he'] at heq
  cases heq
  rw [hk]

theorem KP.ofStep {kid0 : Option String} {st st' : St} (hkid : st'.kid = st.kid)
    (hdir : st'.dir = st.dir) (htr : st'.trace = st.trace) : KP kid0 st st' :=
  ⟨hkid, hdir, [], by simp [htr], by simp⟩

theorem authorize_kp (P : Params) (kid0 : Option String) (st : St)
    (hk : st.kid = kid0) : KP kid0 st (authorize P st).2 := by
  obtain ⟨Δ, ht, _, hpost, _⟩ := authorize_delta P st
  refine ⟨ht.1, ht.2.1, Δ, ht.2.2, ?_⟩
  intro e he u kk heq
  rw [hpost e he u kk heq, hk]

theorem pollOrderReady_kp (u : String) (kid0 : Option String) :
    ∀ (fuel : Nat) (st : St), st.kid = kid0 →
      KP kid0 st (pollOrderReady u fuel st).2 := by
  intro fuel
  induction fuel with
  | zero => intro st _; exact KP.kpRefl kid0 st
  | succ fuel ih =>
    intro st hk
    have h1 := KP.ofPost st (some u) "" hk
    unfold pollOrderReady
    revert h1
    generalize hp : acme_post st (some u) "" = gp
    obtain ⟨code, st1⟩ := gp
    intro h1
    simp only []
    by_cases hcode : code ≠ 200
    · rw [if_pos hcode]; exact h1
    · rw [if_neg hcode]
      by_cases hrdy : json_find_string st1.json "status" == some "ready"
      · rw [if_pos hrdy]
        exact h1.kpComp (KP.ofStep rfl rfl rfl)
      · rw [if_neg hrdy]
        by_cases hpend : !(json_find_string st1.json "status" == some "pending")
        · rw [if_pos hpend]; exact h1
        · rw [if_neg hpend]
          exact h1.kpComp (ih st1 (h1.1.trans hk))

theorem pollOrderValid_kp (u : String) (kid0 : Option String) :
    ∀ (fuel : Nat) (st : St), st.kid = kid0 →
      KP kid0 st (pollOrderValid u fuel st).2 := by
  intro fuel
  induction fuel with
  | zero => intro st _; exact KP.kpRefl kid0 st
  | succ fuel ih =>
    intro st hk
    have h1 := KP.ofPost st (some u) "" hk
    unfold pollOrderValid
    revert h1
    generalize hp : acme_post st (some u) "" = gp
    obtain ⟨code, st1⟩ := gp
    intro h1
    simp only []
    by_cases hcode : code ≠ 200
    · rw [if_pos hcode]; exact h1
    · rw [if_neg hcode]
      by_cases hvd : json_find_string st1.json "status" == some "valid"
      · rw [if_pos hvd]
        exact h1.kpComp (KP.ofStep rfl rfl rfl)
      · rw [if_neg hvd]
        by_cases hproc : !(json_find_string st1.json "status" == some "processing")
        · rw [if_pos hproc]; exact h1
        · rw [if_neg hproc]
          exact h1.kpComp (ih st1 (h1.1.trans hk))

/-- `cert_issue`: once the account URL is adopted, every POST of the order
driver (newOrder, authorization fetches, challenge trigger and polls, order
polls, finalize, certificate download) uses the `kid0` protected-header
form. -/
theorem cert_issue_kp (P : Params) (kid0 : Option String) (st : St)
    (hk : st.kid = kid0) : KP kid0 st (cert_issue P st).2 := by
  unfold cert_issue
  cases hno : json_find_string st.dir "newOrder" with
  | none => exact KP.kpRefl kid0 st
  | some url =>
    simp only []
    have h1 := KP.ofPost st (some url) (identifiers P.names) hk
    revert h1
    generalize hp : acme_post st (some url) (identifiers P.names) = gp
    obtain ⟨code, st1⟩ := gp
    intro h1
    simp only []
    by_cases hcode : code ≠ 201
    · rw [if_pos hcode]; exact h1
    rw [if_neg hcode]
    by_cases hst : !(json_find_string st1.json "status" == some "pending" ||
        json_find_string st1.json "status" == some "ready")
    · rw [if_pos hst]; exact h1
    rw [if_neg hst]
    cases hloc : find_header st1.headers "Location" with
    | none => exact h1
    | some orderurl =>
      simp only []
      have h2 : KP kid0 st { st1 with order := st1.json, json := none } :=
        h1.kpComp (KP.ofStep rfl rfl rfl)
      have hk2 : ({ st1 with order := st1.json, json := none } : St).kid = kid0 :=
        h1.1.trans hk
      set stA : St := { st1 with order := st1.json, json := none } with hstA
      -- the ready / pending fork
      have hfork : ∀ (b : Bool × St),
          (b = (if json_find_string st1.json "status" == some "ready"
            then (true, stA)
            else
              let (ok, st') := authorize P stA
              if !ok then (false, st')
              else pollOrderReady orderurl (st'.net.length + 1) st')) →
          KP kid0 st b.2 := by
        intro b hb
        by_cases hrdy : json_find_string st1.json "status" == some "ready"
        · rw [if_pos hrdy] at hb
          rw [hb]
          exact h2
        · rw [if_neg hrdy] at hb
          have ha := authorize_kp P kid0 stA hk2
          revert ha hb
          generalize hau : authorize P stA = ga
          obtain ⟨oka, stB⟩ := ga
          intro hb ha
          simp only [] at hb
          by_cases hoka : !oka
          · rw [if_pos hoka] at hb
            rw [hb]
            exact h2.kpComp ha
          · rw [if_neg hoka] at hb
            rw [hb]
            exact h2.kpComp (ha.kpComp
              (pollOrderReady_kp orderurl kid0 (stB.net.length + 1) stB
                (ha.1.trans hk2)))
      revert hfork
      generalize hf : (if json_find_string st1.json "status" == some "ready"
        then (true, stA)
        else
          let (ok, st') := authorize P stA
          if !ok then (false, st')
          else pollOrderReady orderurl (st'.net.length + 1) st') = gf
      obtain ⟨ok2, st2⟩ := gf
      intro hfork
      have h3 : KP kid0 st st2 := hfork (ok2, st2) rfl
      simp only []
      by_cases hok2 : !ok2
      · rw [if_pos hok2]; exact h3
      rw [if_neg hok2]
      cases hcsr : P.csr with
      | none => exact h3
      | some csr =>
        simp only []
        cases hfin : json_find_string st2.order "finalize" with
        | none => exact h3
        | some fin =>
          simp only []
          have h4 := KP.ofPost st2 (some fin)
            ("\x7b\"csr\": \"" ++ csr ++ "\"\x7d") (h3.1.trans hk)
          revert h4
          generalize hpf :
            acme_post st2 (some fin) ("\x7b\"csr\": \"" ++ csr ++ "\"\x7d") = gpf
          obtain ⟨code3, st3⟩ := gpf
          intro h4
          simp only []
          by_cases hcode3 : code3 ≠ 200
          · rw [if_pos hcode3]; exact h3.kpComp h4
          rw [if_neg hcode3]
          by_cases herr3 : acme_error st3
          · rw [if_pos herr3]; exact h3.kpComp h4
          rw [if_neg herr3]
          have h5 := pollOrderValid_kp orderurl kid0 (st3.net.length + 1) st3
            (h4.1.trans (h3.1.trans hk))
          revert h5
          generalize hpv :
            pollOrderValid orderurl (st3.net.length + 1) st3 = gpv
          obtain ⟨ok4, st4⟩ := gpv
          intro h5
          simp only []
          have h6 : KP kid0 st st4 := (h3.kpComp h4).kpComp h5
          by_cases hok4 : !ok4
          · rw [if_pos hok4]; exact h6
          rw [if_neg hok4]
          cases hcert : json_find_string st4.order "certificate" with
          | none => exact h6
          | some certurl =>
            simp only []
            have h7 := KP.ofPost st4 (some certurl) "" (h6.1.trans hk)
            revert h7
            generalize hpc : acme_post st4 (some certurl) "" = gpc
            obtain ⟨code5, st5⟩ := gpc
            intro h7
            simp only []
            by_cases hcode5 : code5 ≠ 200
            · rw [if_pos hcode5]; exact h6.kpComp h7
            rw [if_neg hcode5]
            by_cases herr5 : acme_error st5
            · rw [if_pos herr5]; exact h6.kpComp h7
            rw [if_neg herr5]
            by_cases hsave : !P.certSaveOk
            · rw [if_pos hsave]; exact h6.kpComp h7
            · rw [if_neg hsave]; exact h6.kpComp h7

/-- The common caller tail: POST, then fail on non-200 or an ACME error
document; a frame lemma packaged for definitional reuse. -/
theorem post200_kp {kid0 : Option String} (st : St) (u : Option String)
    (p : String) (hk : st.kid = kid0) :
    KP kid0 st (let r := acme_post st u p
      if r.1 ≠ 200 then (false, r.2)
      else if acme_error r.2 then (false, r.2) else (true, r.2)).2 := by
  have h1 := KP.ofPost st u p hk
  revert h1
  generalize hp : acme_post st u p = gp
  obtain ⟨code, st1⟩ := gp
  intro h1
  simp only []
  by_cases hcode : code ≠ 200
  · rw [if_pos hcode]; exact h1
  rw [if_neg hcode]
  by_cases herr : acme_error st1
  · rw [if_pos herr]; exact h1
  · rw [if_neg herr]; exact h1

theorem account_update_post_kp (st : St) (needUpdate : Bool)
    (email : Option String) (kid0 : Option String) (hk : st.kid = kid0) :
    KP kid0 st (account_update_post st needUpdate email).2 := by
  unfold account_update_post
  by_cases hn : needUpdate
  · rw [if_pos hn]
    cases email with
    | none => exact post200_kp st st.kid "\x7b\"contact\": []\x7d" hk
    | some e =>
        exact post200_kp st st.kid
          ("\x7b\"contact\": [\"mailto:" ++ e ++ "\"]\x7d") hk
  · rw [if_neg hn]
    exact KP.kpRefl kid0 st

theorem account_update_kp (st : St) (email kid0 : Option String)
    (hk : st.kid = kid0) : KP kid0 st (account_update st email).2 := by
  unfold account_update
  by_cases harr : !(match json_find st.account "contact" with
    | some (Json.arr _) => true
    | none => true
    | some _ => false)
  · rw [if_pos harr]
    exact KP.kpRefl kid0 st
  rw [if_neg harr]
  by_cases hem : email.getD "" ≠ ""
  · rw [if_pos hem]
    by_cases hmf : !((match json_find st.account "contact" with
        | some (Json.arr l) => l
        | _ => []).all contactIsMailto)
    · rw [if_pos hmf]
      exact KP.kpRefl kid0 st
    · rw [if_neg hmf]
      exact account_update_post_kp st _ _ kid0 hk
  · rw [if_neg hem]
    exact account_update_post_kp st _ _ kid0 hk

theorem account_deactivate_kp (st : St) (kid0 : Option String)
    (hk : st.kid = kid0) : KP kid0 st (account_deactivate st).2 := by
  unfold account_deactivate
  exact post200_kp st st.kid "\x7b\"status\": \"deactivated\"\x7d" hk

theorem cert_revoke_kp (P : Params) (reason : Int) (st : St)
    (kid0 : Option String) (hk : st.kid = kid0) :
    KP kid0 st (cert_revoke P reason st).2 := by
  unfold cert_revoke
  cases hcrt : P.crt with
  | none => exact KP.kpRefl kid0 st
  | some crt =>
    simp only []
    cases hrv : json_find_string st.dir "revokeCert" with
    | none => exact KP.kpRefl kid0 st
    | some url =>
      simp only []
      exact post200_kp st (some url)
        ("\x7b\"certificate\":\"" ++ crt ++ "\",\"reason\":" ++ toString reason
          ++ "\x7d") hk

/-- The network pipeline shared by the `update`, `deactivate`, `issue` and
`revoke` actions: bootstrap, adopt the account URL via `account_retrieve`,
then run the action body `g` in the adopted state. -/
def pipeline (d : String) (g : St → Bool × St) (st0 : St) : Nat × St :=
  let r1 := acme_bootstrap d st0
  if !r1.1 then (1, r1.2)
  else
    let r2 := account_retrieve r1.2
    if !r2.1 then (1, r2.2)
    else
      let r3 := g r2.2
      (if r3.1 then 0 else 1, r3.2)

/-- Trace split for the shared pipeline: the prefix up to and including the
`account_retrieve` POST carries only `jwk`-form POSTs, all to the
directory's `newAccount` URL; once the account URL is adopted the action
body emits only `kid`-form POSTs. -/
theorem pipeline_split (d : String) (g : St → Bool × St) (st0 : St)
    (hkid : st0.kid = none) (htr : st0.trace = [])
    (hloc : netLocOk st0.net = true)
    (hg : ∀ s : St, KP s.kid s (g s).2) :
    ∃ t1 t2, (pipeline d g st0).2.trace = t1 ++ t2 ∧
      (∀ e ∈ t1, ∀ u kk, e = Ev.post u kk →
        kk = HdrKind.jwk ∧
        json_find_string ((pipeline d g st0).2.dir) "newAccount" = some u) ∧
      (∀ e ∈ t2, ∀ u kk, e = Ev.post u kk → kk = HdrKind.kid) := by
  unfold pipeline
  have hb := acme_bootstrap_delta d st0
  revert hb
  generalize h1 : acme_bootstrap d st0 = g1
  obtain ⟨ok1, st1⟩ := g1
  intro hb
  obtain ⟨hbk, ⟨k1, hbn⟩, Δb, hbt, hbg⟩ := hb
  have hbk' : st1.kid = st0.kid := hbk
  have hbn' : st1.net = st0.net.drop k1 := hbn
  have hbt' : st1.trace = st0.trace ++ Δb := hbt
  simp only []
  by_cases hok1 : !ok1
  · rw [if_pos hok1]
    refine ⟨Δb, [], ?_, ?_, by simp⟩
    · show st1.trace = Δb ++ []
      rw [hbt', htr]
      simp
    · intro e he u kk heq
      obtain ⟨u', hget⟩ := hbg e he
      rw [hget] at heq
      cases heq
  rw [if_neg hok1]
  have hr := account_retrieve_delta st1
  revert hr
  generalize h2 : account_retrieve st1 = g2
  obtain ⟨ok2, st2⟩ := g2
  intro hr
  obtain ⟨hrd, ⟨k2, hrn⟩, ⟨Δr, hrt, hrg⟩, hrkid⟩ := hr
  have hrd' : st2.dir = st1.dir := hrd
  have hrt' : st2.trace = st1.trace ++ Δr := hrt
  have hpre : ∀ e ∈ Δb ++ Δr, ∀ u kk, e = Ev.post u kk →
      kk = HdrKind.jwk ∧ json_find_string st1.dir "newAccount" = some u := by
    intro e he u kk heq
    rcases List.mem_append.mp he with h | h
    · obtain ⟨u', hget⟩ := hbg e h
      rw [hget] at heq
      cases heq
    · obtain ⟨hu, hkk⟩ := hrg e h u kk heq
      refine ⟨?_, hu⟩
      rw [hkk, hbk', hkid]
      rfl
  simp only []
  by_cases hok2 : !ok2
  · rw [if_pos hok2]
    refine ⟨Δb ++ Δr, [], ?_, ?_, by simp⟩
    · show st2.trace = (Δb ++ Δr) ++ []
      rw [hrt', hbt', htr]
      simp
    · intro e he u kk heq
      obtain ⟨hj, hu⟩ := hpre e he u kk heq
      refine ⟨hj, ?_⟩
      show json_find_string st2.dir "newAccount" = some u
      rw [hrd']
      exact hu
  rw [if_neg hok2]
  have hok2' : ok2 = true := by
    revert hok2
    cases ok2 <;> simp
  obtain ⟨loc, hloc2, hlocne⟩ :=
    hrkid (by rw [hbn']; exact netLocOk_drop k1 hloc) hok2'
  have hgg := hg st2
  revert hgg
  generalize h3 : g st2 = g3
  obtain ⟨ok3, st3⟩ := g3
  intro hgg
  obtain ⟨hgk, hgd, Δg, hgt, hgc⟩ := hgg
  have hgt' : st3.trace = st2.trace ++ Δg := hgt
  have hgd' : st3.dir = st2.dir := hgd
  refine ⟨Δb ++ Δr, Δg, ?_, ?_, ?_⟩
  · show st3.trace = (Δb ++ Δr) ++ Δg
    rw [hgt', hrt', hbt', htr]
    simp
  · intro e he u kk heq
    obtain ⟨hj, hu⟩ := hpre e he u kk heq
    refine ⟨hj, ?_⟩
    show json_find_string st3.dir "newAccount" = some u
    rw [hgd', hrd']
    exact hu
  · intro e he u kk heq
    have hkk := hgc e he u kk heq
    rw [hkk, hloc2]
    simp [postKind, hlocne]

/-- The network pipeline of the `new` action: bootstrap, then
`account_new`. -/
def newPipeline (d : String) (yes : Bool) (email : Option String)
    (termsY : Bool) (st0 : St) : Nat × St :=
  let r1 := acme_bootstrap d st0
  if !r1.1 then (1, r1.2)
  else
    let r2 := account_new r1.2 yes email termsY
    (if r2.1 then 0 else 1, r2.2)

/-- Trace split for the `new` pipeline: every POST is a `jwk`-form POST to
the directory's `newAccount` URL (no `kid` POST ever happens). -/
theorem newPipeline_split (d : String) (yes : Bool) (email : Option String)
    (termsY : Bool) (st0 : St) (hkid : st0.kid = none) (htr : st0.trace = []) :
    ∃ t1 t2, (newPipeline d yes email termsY st0).2.trace = t1 ++ t2 ∧
      (∀ e ∈ t1, ∀ u kk, e = Ev.post u kk →
        kk = HdrKind.jwk ∧
        json_find_string ((newPipeline d yes email termsY st0).2.dir)
          "newAccount" = some u) ∧
      (∀ e ∈ t2, ∀ u kk, e = Ev.post u kk → kk = HdrKind.kid) := by
  unfold newPipeline
  have hb := acme_bootstrap_delta d st0
  revert hb
  generalize h1 : acme_bootstrap d st0 = g1
  obtain ⟨ok1, st1⟩ := g1
  intro hb
  obtain ⟨hbk, _, Δb, hbt, hbg⟩ := hb
  have hbk' : st1.kid = st0.kid := hbk
  have hbt' : st1.trace = st0.trace ++ Δb := hbt
  simp only []
  by_cases hok1 : !ok1
  · rw [if_pos hok1]
    refine ⟨Δb, [], ?_, ?_, by simp⟩
    · show st1.trace = Δb ++ []
      rw [hbt', htr]
      simp
    · intro e he u kk heq
      obtain ⟨u', hget⟩ := hbg e he
      rw [hget] at heq
      cases heq
  rw [if_neg hok1]
  have hn := account_new_delta st1 yes termsY email
  revert hn
  generalize h2 : account_new st1 yes email termsY = g2
  obtain ⟨ok2, st2⟩ := g2
  intro hn
  obtain ⟨hnd, Δn, hnt, hng⟩ := hn
  have hnd' : st2.dir = st1.dir := hnd
  have hnt' : st2.trace = st1.trace ++ Δn := hnt
  refine ⟨Δb ++ Δn, [], ?_, ?_, by simp⟩
  · show st2.trace = (Δb ++ Δn) ++ []
    rw [hnt', hbt', htr]
    simp
  · intro e he u kk heq
    rcases List.mem_append.mp he with h | h
    · obtain ⟨u', hget⟩ := hbg e h
      rw [hget] at heq
      cases heq
    · obtain ⟨hu, hkk⟩ := hng e h u kk heq
      constructor
      · rw [hkk, hbk', hkid]
        rfl
      · show json_find_string st2.dir "newAccount" = some u
        rw [hnd']
        exact hu

/-- C5 (invariants, confirmed): each signed POST carries exactly one of
the `jwk` / `kid` protected-header forms; in every action's trace the
`jwk` form appears only on POSTs to the directory's `newAccount` URL
(before an account URL is known), and once `account_retrieve` has adopted
the account URL every subsequent POST of the run uses the `kid` form.
The hypothesis `netLocOk` says the scripted `Location` headers are
non-empty strings, so an adopted account URL is a real URL. -/
theorem C5_protected_header (P : Params) (act : Action)
    (hloc : netLocOk P.net = true) :
    (∀ e ∈ (runAction P act).2.trace, ∀ u kk, e = Ev.post u kk →
      (kk = HdrKind.jwk ↔ ¬kk = HdrKind.kid)) ∧
    ∃ t1 t2, (runAction P act).2.trace = t1 ++ t2 ∧
      (∀ e ∈ t1, ∀ u kk, e = Ev.post u kk →
        kk = HdrKind.jwk ∧
        json_find_string ((runAction P act).2.dir) "newAccount" = some u) ∧
      (∀ e ∈ t2, ∀ u kk, e = Ev.post u kk → kk = HdrKind.kid) := by
  constructor
  · intro e he u kk heq
    cases kk
    · simp
    · simp
  · cases act with
    | new =>
      delta runAction
      simp only []
      rw [if_neg (by decide : ¬((!true : Bool) = true))]
      by_cases h2 : (!P.hookAccessOk) = true
      · rw [if_pos h2]
        exact ⟨[], [], rfl, by simp, by simp⟩
      rw [if_neg h2]
      by_cases h3 : (!(P.confdirOk && P.keydirOk && P.keyLoadOk)) = true
      · rw [if_pos h3]
        exact ⟨[], [], rfl, by simp, by simp⟩
      rw [if_neg h3]
      exact newPipeline_split P.directory P.yes P.email P.termsY
        (initSt P.net) rfl rfl
    | update =>
      delta runAction
      simp only []
      rw [if_neg (by decide : ¬((!true : Bool) = true))]
      by_cases h2 : (!P.hookAccessOk) = true
      · rw [if_pos h2]
        exact ⟨[], [], rfl, by simp, by simp⟩
      rw [if_neg h2]
      by_cases h3 : (!(P.confdirOk && P.keydirOk && P.keyLoadOk)) = true
      · rw [if_pos h3]
        exact ⟨[], [], rfl, by simp, by simp⟩
      rw [if_neg h3]
      exact pipeline_split P.directory (fun s => account_update s P.email)
        (initSt P.net) rfl rfl hloc
        (fun s => account_update_kp s P.email s.kid rfl)
    | deactivate =>
      delta runAction
      simp only []
      rw [if_neg (by decide : ¬((!true : Bool) = true))]
      by_cases h2 : (!P.hookAccessOk) = true
      · rw [if_pos h2]
        exact ⟨[], [], rfl, by simp, by simp⟩
      rw [if_neg h2]
      by_cases h3 : (!(P.confdirOk && P.keydirOk && P.keyLoadOk)) = true
      · rw [if_pos h3]
        exact ⟨[], [], rfl, by simp, by simp⟩
      rw [if_neg h3]
      exact pipeline_split P.directory account_deactivate
        (initSt P.net) rfl rfl hloc
        (fun s => account_deactivate_kp s s.kid rfl)
    | issue =>
      delta runAction
      simp only []
      by_cases h1 : (!(!P.names.isEmpty && P.names.all validate_domain_str)) =
          true
      · rw [if_pos h1]
        exact ⟨[], [], rfl, by simp, by simp⟩
      rw [if_neg h1]
      by_cases h2 : (!P.hookAccessOk) = true
      · rw [if_pos h2]
        exact ⟨[], [], rfl, by simp, by simp⟩
      rw [if_neg h2]
      by_cases h3 : (!(P.confdirOk && P.keydirOk && P.keyLoadOk)) = true
      · rw [if_pos h3]
        exact ⟨[], [], rfl, by simp, by simp⟩
      rw [if_neg h3]
      by_cases h4 : (!P.dkeydirOk) = true
      · rw [if_pos h4]
        exact ⟨[], [], rfl, by simp, by simp⟩
      rw [if_neg h4]
      by_cases h5 : (!P.certdirOk) = true
      · rw [if_pos h5]
        exact ⟨[], [], rfl, by simp, by simp⟩
      rw [if_neg h5]
      by_cases h6 : (!P.dkeyLoadOk) = true
      · rw [if_pos h6]
        exact ⟨[], [], rfl, by simp, by simp⟩
      rw [if_neg h6]
      by_cases h7 : (cert_valid P.cert P.names P.days && !P.force) = true
      · rw [if_pos h7]
        exact ⟨[], [], rfl, by simp, by simp⟩
      rw [if_neg h7]
      exact pipeline_split P.directory (cert_issue P)
        (initSt P.net) rfl rfl hloc
        (fun s => cert_issue_kp P s.kid s rfl)
    | revoke =>
      delta runAction
      simp only []
      by_cases h1 : (!P.revokeFileReadable) = true
      · rw [if_pos h1]
        exact ⟨[], [], rfl, by simp, by simp⟩
      rw [if_neg h1]
      by_cases h2 : (!P.hookAccessOk) = true
      · rw [if_pos h2]
        exact ⟨[], [], rfl, by simp, by simp⟩
      rw [if_neg h2]
      by_cases h3 : (!(P.confdirOk && P.keydirOk && P.keyLoadOk)) = true
      · rw [if_pos h3]
        exact ⟨[], [], rfl, by simp, by simp⟩
      rw [if_neg h3]
      exact pipeline_split P.directory (cert_revoke P 0)
        (initSt P.net) rfl rfl hloc
        (fun s => cert_revoke_kp P 0 s s.kid rfl)

/-- Network script for a `new` run on a fresh account: directory, nonce,
the probe POST answered `400 accountDoesNotExist`, then the creating POST
answered `201` with the new account's `Location`. -/
def C5net : List (Option Resp) := [
  some (respOf 200 ["Replay-Nonce: N1", "Content-Type: application/json"]
    (some dirDoc)),
  some (respOf 204 ["Replay-Nonce: N2"] none),
  some (respOf 400 ["Replay-Nonce: N3",
      "Content-Type: application/problem+json"]
    (some (Json.obj [("type",
      Json.str "urn:ietf:params:acme:error:accountDoesNotExist")]))),
  some (respOf 201 ["Replay-Nonce: N4", "Content-Type: application/json",
      "Location: https://a/acct/1"]
    (some (Json.obj [("status", Json.str "valid")])))]

/-- Parameters running the `new` action against `C5net`. -/
def C5P : Params := { skipParams with net := C5net }

/-- Witness for `C5_protected_header`: on the concrete fresh-account `new`
run both POSTs of the trace go to the `newAccount` URL in `jwk` form. -/
theorem C5_witness :
    netLocOk C5P.net = true ∧
    (runAction C5P Action.new).2.trace =
      [Ev.get "https://a/dir", Ev.get "https://a/nn",
       Ev.post "https://a/na" HdrKind.jwk,
       Ev.post "https://a/na" HdrKind.jwk] ∧
    (∃ t1 t2, (runAction C5P Action.new).2.trace = t1 ++ t2 ∧
      (∀ e ∈ t1, ∀ u kk, e = Ev.post u kk →
        kk = HdrKind.jwk ∧
        json_find_string ((runAction C5P Action.new).2.dir) "newAccount"
          = some u) ∧
      (∀ e ∈ t2, ∀ u kk, e = Ev.post u kk → kk = HdrKind.kid)) :=
  ⟨by decide, by decide, (C5_protected_header C5P Action.new (by decide)).2⟩

end Uacme
